import Mathlib

/-!
Shallow embedding of the data-quality YAML generation utility
(cloud_main.py): the semantic spreadsheet validator (validate_excel) and
the compiler (process_excel_file together with write_yaml_files).

Conventions of the embedding:
* A spreadsheet cell read with dtype=str is an `Option String`.
  `none` models a missing cell (pandas NaN), `some s` a text cell.
  Python str(...) applied to such a cell yields "nan" for a missing cell.
* The compiler re-reads the sheets with fillna(""), so it works on rows
  whose cells are plain strings; a missing cell has become "".
* Python float(...) is modelled by `pyFloat`, a decimal parser that
  accepts surrounding whitespace, an optional sign, an integer part, an
  optional fractional part and an optional exponent. Special spellings
  (inf, nan, digit underscores) are outside the model and yield `none`.
  Numeric values are held as exact rationals instead of machine floats.
* Ordered Python dicts are modelled as association lists kept in
  insertion order.
-/

/-- One row of the ColumnLevel sheet; `α` is `Option String` at the
validation stage and `String` after fillna("") at the compile stage.
Field names follow the sheet columns of cloud_main.py. -/
structure ColumnRowG (α : Type) where
  gcpProjectId : α
  bqDatasetId : α
  bqTableName : α
  columnName : α
  ruleName : α
  ruleDescription : α
  dqRule : α
  ignoreNullValues : α
  threshhold : α
  rangeMinValue : α
  strictRangeMinValue : α
  rangeMaxValue : α
  strictRangeMaxValue : α
  setValues : α
  regularExpression : α
  sqlExpression : α
deriving DecidableEq

/-- One row of the TableLevel sheet. -/
structure TableRowG (α : Type) where
  gcpProjectId : α
  bqDatasetId : α
  bqTableName : α
  partitionFilterCondition : α
  dataSamplingPct : α
  scheduleInterval : α
  dqExportGcpProjectId : α
  dqExportBqDatasetId : α
  dqExportBqTableName : α
deriving DecidableEq

abbrev ColumnRow := ColumnRowG (Option String)

abbrev TableRow := TableRowG (Option String)

abbrev ColumnRowF := ColumnRowG String

abbrev TableRowF := TableRowG String

/-- Python str(cell) for a dtype=str cell: a missing cell prints as nan. -/
def pyStr (c : Option String) : String :=
  match c with
  | some s => s
  | none => "nan"

/-- pandas pd.notna on a cell. -/
def notna (c : Option String) : Bool :=
  c.isSome

/-- pandas equality of two cells: NaN compares unequal to everything. -/
def optEq (a b : Option String) : Bool :=
  match a, b with
  | some x, some y => decide (x = y)
  | _, _ => false

/-- Python str.strip(): drop leading and trailing whitespace. Implemented
over the character list so that it evaluates by kernel reduction; only
ASCII whitespace is modelled. -/
def pyStrip (s : String) : String :=
  String.mk (((s.data.dropWhile Char.isWhitespace).reverse.dropWhile Char.isWhitespace).reverse)

/-- Python str.upper() on the ASCII letters this program compares. -/
def pyUpper (s : String) : String :=
  String.mk (s.data.map Char.toUpper)

/-- Python str.lower() on the ASCII letters this program compares. -/
def pyLower (s : String) : String :=
  String.mk (s.data.map Char.toLower)

/-- Split a character list on a separator character; never returns an
empty list. -/
def splitChar (sep : Char) (l : List Char) : List (List Char) :=
  l.foldr
    (fun c acc =>
      if c = sep then [] :: acc
      else
        match acc with
        | h :: r => (c :: h) :: r
        | [] => [[c]])
    [[]]

/-- Python s.split(",") for a non-empty s: the comma-separated pieces. -/
def pySplitComma (s : String) : List String :=
  (splitChar ',' s.data).map String.mk

/-- Digit list to natural number. -/
def digitsToNat (cs : List Char) : Nat :=
  cs.foldl (fun a c => a * 10 + (c.toNat - 48)) 0

/-- All characters are decimal digits. -/
def isDigitList (cs : List Char) : Bool :=
  cs.all (fun c => c.isDigit)

/-- Consume an optional leading sign. -/
def parseSign : List Char → (Int × List Char)
  | '+' :: r => (1, r)
  | '-' :: r => (-1, r)
  | r => (1, r)

/-- Split at the first character satisfying `p`; the second component is
the remainder after that character when one exists. -/
def splitAtChar (p : Char → Bool) (cs : List Char) : List Char × Option (List Char) :=
  let pre := cs.takeWhile (fun c => !(p c))
  match cs.drop pre.length with
  | [] => (pre, none)
  | _ :: r => (pre, some r)

/-- Unsigned decimal mantissa: digits, optional point, digits; at least
one digit overall. Returns the numerator and the power of ten dividing
it, so that the value is n / 10 ^ dpow. -/
def parseUnsignedDec (cs : List Char) : Option (Nat × Nat) :=
  let ip := (splitAtChar (fun c => c == '.') cs).1
  match (splitAtChar (fun c => c == '.') cs).2 with
  | none => if ip ≠ [] ∧ isDigitList ip then some (digitsToNat ip, 0) else none
  | some fp =>
    if (ip ≠ [] ∨ fp ≠ []) ∧ isDigitList ip ∧ isDigitList fp then
      some (digitsToNat ip * 10 ^ fp.length + digitsToNat fp, fp.length)
    else none

/-- Optional sign followed by a nonempty digit string, as an integer. -/
def parseExpPart (cs : List Char) : Option Int :=
  let sr := parseSign cs
  if sr.2 ≠ [] ∧ isDigitList sr.2 then some (sr.1 * (digitsToNat sr.2 : Int)) else none

/-- Model of Python float(s) on the strings this program feeds it:
whitespace-trimmed signed decimal with optional exponent, as an exact
rational. Returns `none` where float(...) raises ValueError (and on the
unmodelled special spellings inf, nan and digit underscores). -/
def pyFloat (s : String) : Option ℚ :=
  let cs := (pyStrip s).data
  let sr := parseSign cs
  let me := splitAtChar (fun c => c == 'e' || c == 'E') sr.2
  match parseUnsignedDec me.1 with
  | none => none
  | some m =>
    match me.2 with
    | none => some (mkRat (sr.1 * (m.1 : Int)) (10 ^ m.2))
    | some ec =>
      match parseExpPart ec with
      | none => none
      | some e =>
        if 0 ≤ e then some (mkRat (sr.1 * (m.1 : Int) * (10 : Int) ^ e.toNat) (10 ^ m.2))
        else some (mkRat (sr.1 * (m.1 : Int)) (10 ^ m.2 * 10 ^ (-e).toNat))

/-- The closed DQ Rule enum of validate_excel. -/
def validDqRules : List String :=
  ["NOT_NULL", "RANGE", "UNIQUE", "SQL_ROW", "REGEX", "SET", "SQL_TABLE", "SQL_ASSERT"]

/-- The values accepted for the tri-state flag columns (line 112 of the
source): empty, NAN, TRUE, FALSE after strip().upper(). -/
def triStateAccepted : List String :=
  ["", "NAN", "TRUE", "FALSE"]

def msgNoRecords : String :=
  "ColumnLevel sheet does not contain any records."

def msgMissingIdentity (sheet : String) (i : Nat) : String :=
  "Missing required values in " ++ sheet ++ " sheet at row " ++ toString (i + 1) ++ "."

def msgNoCorresponding (i : Nat) : String :=
  "No corresponding record in ColumnLevel sheet for TableLevel row " ++ toString (i + 1) ++ "."

def msgDqRule (i : Nat) : String :=
  "\x27DQ Rule\x27 should be one of [\x27NOT_NULL\x27, \x27RANGE\x27, \x27UNIQUE\x27, \x27SQL_ROW\x27, \x27REGEX\x27, \x27SET\x27, \x27SQL_TABLE\x27, \x27SQL_ASSERT\x27] in ColumnLevel sheet at row " ++ toString (i + 1) ++ "."

def msgNotNullIgnore (i : Nat) : String :=
  "\x27Ignore Null Values\x27 should not be TRUE when \x27DQ Rule\x27 is NOT_NULL in ColumnLevel sheet at row " ++ toString (i + 1) ++ "."

def msgIgnoreTri (i : Nat) : String :=
  "\x27Ignore Null Values\x27 should be empty, TRUE, or FALSE in ColumnLevel sheet at row " ++ toString (i + 1) ++ "."

def msgThrNotNumber (i : Nat) : String :=
  "\x27Threshhold\x27 should be a number in ColumnLevel sheet at row " ++ toString (i + 1) ++ "."

def msgThrRange (i : Nat) : String :=
  "\x27Threshhold\x27 should be within the range of 0-1 in ColumnLevel sheet at row " ++ toString (i + 1) ++ "."

def msgStrictMinTri (i : Nat) : String :=
  "\x27Strict Range Min Value\x27 should be empty, TRUE, or FALSE in ColumnLevel sheet at row " ++ toString (i + 1) ++ "."

def msgStrictMaxTri (i : Nat) : String :=
  "\x27Strict Range Max Value\x27 should be empty, TRUE, or FALSE in ColumnLevel sheet at row " ++ toString (i + 1) ++ "."

def msgMinRequired (i : Nat) : String :=
  "\x27Range Min Value\x27 should not be empty when \x27Strict Range Min Value\x27 is TRUE in ColumnLevel sheet at row " ++ toString (i + 1) ++ "."

def msgMaxRequired (i : Nat) : String :=
  "\x27Range Max Value\x27 should not be empty when \x27Strict Range Max Value\x27 is TRUE in ColumnLevel sheet at row " ++ toString (i + 1) ++ "."

def msgRangeRequired (i : Nat) : String :=
  "\x27Range Min Value\x27 and \x27Range Max Value\x27 should not be empty when \x27DQ Rule\x27 is RANGE in ColumnLevel sheet at row " ++ toString (i + 1) ++ "."

def msgSetRequired (i : Nat) : String :=
  "\x27Set Values\x27 should not be empty when \x27DQ Rule\x27 is SET in ColumnLevel sheet at row " ++ toString (i + 1) ++ "."

def msgRegexRequired (i : Nat) : String :=
  "\x27Regular Expression\x27 should not be empty when \x27DQ Rule\x27 is REGEX in ColumnLevel sheet at row " ++ toString (i + 1) ++ "."

def msgSqlRequired (i : Nat) (dq : String) : String :=
  "\x27SQL Expression\x27 should not be empty when \x27DQ Rule\x27 is " ++ dq ++ " in ColumnLevel sheet at row " ++ toString (i + 1) ++ "."

def msgSampNotNumber (i : Nat) : String :=
  "\x27Data Sampling %\x27 should be a number in TableLevel sheet at row " ++ toString (i + 1) ++ "."

def msgSampRange (i : Nat) : String :=
  "\x27Data Sampling %\x27 should be within the range of 0-100 in TableLevel sheet at row " ++ toString (i + 1) ++ "."

def msgValid : String :=
  "Excel sheet is valid."

/-- Identity check on a ColumnLevel row (required project, dataset and
table ids must be non-missing). -/
def colIdErr (i : Nat) (r : ColumnRow) : Option String :=
  if !(notna r.gcpProjectId && notna r.bqDatasetId && notna r.bqTableName) then
    some (msgMissingIdentity "ColumnLevel" i)
  else none

/-- Identity check on a TableLevel row. -/
def tblIdErr (i : Nat) (r : TableRow) : Option String :=
  if !(notna r.gcpProjectId && notna r.bqDatasetId && notna r.bqTableName) then
    some (msgMissingIdentity "TableLevel" i)
  else none

/-- Cross-sheet referential check for one TableLevel row. -/
def crossErr (cols : List ColumnRow) (i : Nat) (t : TableRow) : Option String :=
  if !(cols.any (fun c =>
      optEq c.gcpProjectId t.gcpProjectId &&
      optEq c.bqDatasetId t.bqDatasetId &&
      optEq c.bqTableName t.bqTableName)) then
    some (msgNoCorresponding i)
  else none

/-- Threshhold block of the per-row checks (lines 117-126). -/
def thrErr (i : Nat) (r : ColumnRow) : Option String :=
  match r.threshhold with
  | none => none
  | some t =>
    match pyFloat t with
    | none => some (msgThrNotNumber i)
    | some v => if ¬(0 ≤ v ∧ v ≤ 1) then some (msgThrRange i) else none

/-- Per-row DQ Rule checks of validate_excel (lines 100-167), in source
order, returning the first failure. -/
def colRowErr (i : Nat) (r : ColumnRow) : Option String :=
  let dq := pyUpper (pyStrip (pyStr r.dqRule))
  if dq ∉ validDqRules then some (msgDqRule i)
  else if dq = "NOT_NULL" ∧ pyUpper (pyStrip (pyStr r.ignoreNullValues)) = "TRUE" then
    some (msgNotNullIgnore i)
  else if pyUpper (pyStrip (pyStr r.ignoreNullValues)) ∉ triStateAccepted then
    some (msgIgnoreTri i)
  else
    (thrErr i r).orElse (fun _ =>
      if pyUpper (pyStrip (pyStr r.strictRangeMinValue)) ∉ triStateAccepted then
        some (msgStrictMinTri i)
      else if pyUpper (pyStrip (pyStr r.strictRangeMaxValue)) ∉ triStateAccepted then
        some (msgStrictMaxTri i)
      else if pyUpper (pyStrip (pyStr r.strictRangeMinValue)) = "TRUE" ∧ ¬(notna r.rangeMinValue = true) then
        some (msgMinRequired i)
      else if pyUpper (pyStrip (pyStr r.strictRangeMaxValue)) = "TRUE" ∧ ¬(notna r.rangeMaxValue = true) then
        some (msgMaxRequired i)
      else if dq = "RANGE" ∧ (¬(notna r.rangeMinValue = true) ∨ ¬(notna r.rangeMaxValue = true)) then
        some (msgRangeRequired i)
      else if dq = "SET" ∧ ¬(notna r.setValues = true) then
        some (msgSetRequired i)
      else if dq = "REGEX" ∧ ¬(notna r.regularExpression = true) then
        some (msgRegexRequired i)
      else if dq ∈ ["SQL_ROW", "SQL_TABLE", "SQL_ASSERT"] ∧ ¬(notna r.sqlExpression = true) then
        some (msgSqlRequired i dq)
      else none)

/-- Data Sampling % check for one TableLevel row (lines 170-180). -/
def sampErr (i : Nat) (t : TableRow) : Option String :=
  match t.dataSamplingPct with
  | none => none
  | some s =>
    match pyFloat s with
    | none => some (msgSampNotNumber i)
    | some v => if ¬(0 ≤ v ∧ v ≤ 100) then some (msgSampRange i) else none

/-- First error produced by an indexed per-row check, indices starting
at `n`. -/
def firstErrFrom (f : Nat → α → Option String) : Nat → List α → Option String
  | _, [] => none
  | i, x :: xs =>
    match f i x with
    | some e => some e
    | none => firstErrFrom f (i + 1) xs

def firstErr (f : Nat → α → Option String) (l : List α) : Option String :=
  firstErrFrom f 0 l

/-- All record-level checks of validate_excel in source order, returning
the first failure message. -/
def allErr (cols : List ColumnRow) (tbls : List TableRow) : Option String :=
  (firstErr colIdErr cols).orElse (fun _ =>
  (firstErr tblIdErr tbls).orElse (fun _ =>
  (firstErr (crossErr cols) tbls).orElse (fun _ =>
  (firstErr colRowErr cols).orElse (fun _ =>
  firstErr sampErr tbls))))

/-- The record-level part of validate_excel (lines 66-183): the sheets
have already been read with dtype=str and both carry the required
columns. Returns the (ok, message) pair of the source. -/
def validateExcel (cols : List ColumnRow) (tbls : List TableRow) : Bool × String :=
  if cols.isEmpty then (false, msgNoRecords)
  else
    match allErr cols tbls with
    | some m => (false, m)
    | none => (true, msgValid)

/-- The rule-type to expectation-kind lookup table of process_excel_file
(dq_rule_expectation_dict). -/
def dqRuleExpectationDict : List (String × String) :=
  [("NOT_NULL", "nonNullExpectation"),
   ("RANGE", "rangeExpectation"),
   ("UNIQUE", "uniquenessExpectation"),
   ("SQL_ROW", "rowConditionExpectation"),
   ("REGEX", "regexExpectation"),
   ("SET", "setExpectation"),
   ("SQL_TABLE", "tableConditionExpectation"),
   ("SQL_ASSERT", "sqlAssertion")]

/-- The rule-type to dimension lookup table of process_excel_file
(dq_rule_dimession_dict in the source). -/
def dqRuleDimensionDict : List (String × String) :=
  [("NOT_NULL", "COMPLETENESS"),
   ("RANGE", "VALIDITY"),
   ("UNIQUE", "UNIQUENESS"),
   ("SQL_ROW", "VALIDITY"),
   ("REGEX", "VALIDITY"),
   ("SET", "VALIDITY"),
   ("SQL_TABLE", "VALIDITY"),
   ("SQL_ASSERT", "VALIDITY")]

/-- Python dict.get(k, dflt) over an association list with unique keys. -/
def dictGet : List (String × String) → String → String → String
  | [], _, dflt => dflt
  | (a, b) :: rest, k, dflt => if k = a then b else dictGet rest k dflt

/-- A YAML scalar-or-list value inside a compiled rule. -/
inductive RVal where
  | s (v : String)
  | n (v : ℚ)
  | b (v : Bool)
  | strs (v : List String)
deriving DecidableEq, Repr

/-- Python truthiness of the values stored in the accumulation lists. -/
def pyTruthy : RVal → Bool
  | RVal.s v => decide (v ≠ "")
  | RVal.n q => decide (q ≠ 0)
  | RVal.b b => b
  | RVal.strs l => decide (l ≠ [])

/-- An entry of a compiled rule document: either a scalar or the nested
mapping stored under the expectation-kind key. -/
inductive Entry where
  | scalar (v : RVal)
  | nested (m : List (String × RVal))
deriving DecidableEq, Repr

/-- A compiled rule: an insertion-ordered mapping. -/
abbrev Rule := List (String × Entry)

/-- A top-level value of the emitted document. `TVal.n` is the numeric
case used only to state claims about value kinds; the compiler of the
source never produces it. -/
inductive TVal where
  | s (v : String)
  | n (v : ℚ)
  | rules (v : List Rule)
  | map1 (v : List (String × List (String × String)))
deriving DecidableEq, Repr

/-- An emitted configuration document: an insertion-ordered mapping. -/
abbrev Doc := List (String × TVal)

def ruleLookup (r : Rule) (k : String) : Option Entry :=
  (r.find? (fun p => decide (p.1 = k))).map (fun p => p.2)

def docLookup (d : Doc) (k : String) : Option TVal :=
  (d.find? (fun p => decide (p.1 = k))).map (fun p => p.2)

/-- The identity triple (project, dataset, table) of a group. -/
abbrev Key := String × String × String

def keyOf (r : ColumnRowF) : Key :=
  (r.gcpProjectId, r.bqDatasetId, r.bqTableName)

/-- The group-key string "{project}~{dataset}~{table}". -/
def keyStr (k : Key) : String :=
  k.1 ++ "~" ++ k.2.1 ++ "~" ++ k.2.2

/-- Strict lexicographic comparison of character lists by code point:
the comparison Python uses on strings. -/
def listLtB : List Char → List Char → Bool
  | [], [] => false
  | [], _ :: _ => true
  | _ :: _, [] => false
  | c :: cs, d :: ds =>
    if c.toNat < d.toNat then true
    else if d.toNat < c.toNat then false
    else listLtB cs ds

/-- Strict comparison of strings by code point. -/
def strLtB (a b : String) : Bool :=
  listLtB a.data b.data

/-- Strict lexicographic comparison of string pairs. -/
def strPairLtB (a b : String × String) : Bool :=
  strLtB a.1 b.1 || (decide (a.1 = b.1) && strLtB a.2 b.2)

/-- Strict lexicographic comparison of identity triples: the order in
which pandas groupby (sort=True, the default) yields the groups. -/
def keyLtB (a b : Key) : Bool :=
  strLtB a.1 b.1 || (decide (a.1 = b.1) && strPairLtB a.2 b.2)

/-- Insert into an ascending list of keys. -/
def insertSorted (k : Key) : List Key → List Key
  | [] => [k]
  | h :: t => if keyLtB k h then k :: h :: t else h :: insertSorted k t

/-- Ascending sort of a key list. -/
def sortKeys (l : List Key) : List Key :=
  l.foldr insertSorted []

/-- Distinct keys in order of first occurrence, skipping keys already
seen. -/
def dedupFirstAux (seen : List Key) : List Key → List Key
  | [] => []
  | k :: rest =>
    if k ∈ seen then dedupFirstAux seen rest
    else k :: dedupFirstAux (k :: seen) rest

/-- The distinct identity triples of the ColumnLevel rows, in first-seen
order. -/
def firstSeenKeys (cols : List ColumnRowF) : List Key :=
  dedupFirstAux [] (cols.map keyOf)

/-- The groups in the order pandas groupby iterates them: distinct
identity triples sorted ascending. -/
def groupKeys (cols : List ColumnRowF) : List Key :=
  sortKeys (firstSeenKeys cols)

/-- The rows of one group, in their original sheet order. -/
def groupRows (cols : List ColumnRowF) (k : Key) : List ColumnRowF :=
  cols.filter (fun r => decide (keyOf r = k))

/-- The first TableLevel row matching an identity triple, when any. -/
def findTableRow (tbls : List TableRowF) (k : Key) : Option TableRowF :=
  tbls.find? (fun t =>
    decide (t.gcpProjectId = k.1) && decide (t.bqDatasetId = k.2.1) && decide (t.bqTableName = k.2.2))

/-- A metadata field of the matching TableLevel row, defaulting to the
empty string when no row matches. -/
def metaOf (tbls : List TableRowF) (k : Key) (f : TableRowF → String) : String :=
  match findTableRow tbls k with
  | some t => f t
  | none => ""

/-- The values process_excel_file appends to the accumulation lists for
one ColumnLevel row (lines 301-315). -/
structure RuleCells where
  expectation : String
  dimension : String
  name : String
  description : String
  threshold : RVal
  ignoreNull : String
  column : String
  minValue : String
  maxValue : String
  strictMin : String
  strictMax : String
  sqlExpr : String
  regex : String
  setVals : RVal
deriving DecidableEq

/-- Build the per-row accumulation values. `none` models the uncaught
ValueError that float(...) raises on a non-empty non-numeric Threshhold
cell. -/
def mkCells (r : ColumnRowF) : Option RuleCells :=
  (if r.threshhold = "" then some (RVal.s "") else (pyFloat r.threshhold).map RVal.n).map
    (fun thr =>
      { expectation := dictGet dqRuleExpectationDict r.dqRule ""
        dimension := dictGet dqRuleDimensionDict r.dqRule ""
        name := r.ruleName
        description := r.ruleDescription
        threshold := thr
        ignoreNull := r.ignoreNullValues
        column := r.columnName
        minValue := r.rangeMinValue
        maxValue := r.rangeMaxValue
        strictMin := r.strictRangeMinValue
        strictMax := r.strictRangeMaxValue
        sqlExpr := r.sqlExpression
        regex := r.regularExpression
        setVals := if r.setValues = "" then RVal.s "" else RVal.strs (pySplitComma r.setValues) })

/-- One per-table accumulation entry of yaml_content_dict: the metadata
captured when the entry was created plus the per-row cells in insertion
order. -/
structure GroupAcc where
  cells : List RuleCells
  partitionFilter : String
  dataSampling : String
  scheduleInterval : String
  expProject : String
  expDataset : String
  expTable : String
deriving DecidableEq

/-- The fresh accumulation entry for a group (lines 277-299): metadata
from the first matching TableLevel row, defaults empty. -/
def newAcc (tbls : List TableRowF) (k : Key) : GroupAcc :=
  { cells := []
    partitionFilter := metaOf tbls k (fun t => t.partitionFilterCondition)
    dataSampling := metaOf tbls k (fun t => t.dataSamplingPct)
    scheduleInterval := metaOf tbls k (fun t => t.scheduleInterval)
    expProject := metaOf tbls k (fun t => t.dqExportGcpProjectId)
    expDataset := metaOf tbls k (fun t => t.dqExportBqDatasetId)
    expTable := metaOf tbls k (fun t => t.dqExportBqTableName) }

/-- An entry with given cells on top of the fresh metadata. -/
def mkAcc (tbls : List TableRowF) (k : Key) (cs : List RuleCells) : GroupAcc :=
  { newAcc tbls k with cells := cs }

/-- Append the cells of one row to yaml_content_dict under the group-key
string, creating the entry with the supplied fresh metadata when the
string is not yet a key (lines 277-315). -/
def pushRow (d : List (String × GroupAcc)) (ks : String) (a0 : GroupAcc) (c : RuleCells) :
    List (String × GroupAcc) :=
  match d with
  | [] => [(ks, { a0 with cells := a0.cells ++ [c] })]
  | (k, a) :: rest =>
    if k = ks then (k, { a with cells := a.cells ++ [c] }) :: rest
    else (k, a) :: pushRow rest ks a0 c

/-- The accumulation loop of process_excel_file (lines 248-315): iterate
the groups in groupby order and push every row of each group. -/
def compileGroups (cols : List ColumnRowF) (tbls : List TableRowF) :
    Option (List (String × GroupAcc)) :=
  (groupKeys cols).foldlM
    (fun d k =>
      (groupRows cols k).foldlM
        (fun d2 r => (mkCells r).map (fun c => pushRow d2 (keyStr k) (newAcc tbls k) c))
        d)
    []

/-- Replace every occurrence of the character `c` by the string `r`:
Python str.replace for a single-character pattern. -/
def replaceChar (s : String) (c : Char) (r : String) : String :=
  String.mk (s.data.flatMap (fun ch => if ch = c then r.data else [ch]))

/-- Derivation of the output document name (lines 348-355). -/
def nameOf (ks sched : String) : String :=
  if sched ≠ "" ∧ pyStrip sched ≠ "" then
    replaceChar ks '~' "__" ++ "__" ++ replaceChar (replaceChar sched '*' "star") ' ' "_" ++ ".yaml"
  else
    replaceChar ks '~' "__" ++ ".yaml"

/-- The nested mapping placed under the expectation-kind key of one rule
(lines 387-414), entries in insertion order. -/
def nestedFields (c : RuleCells) : List (String × RVal) :=
  (if c.minValue ≠ "" then [("minValue", RVal.s c.minValue)] else []) ++
  (if c.maxValue ≠ "" then [("maxValue", RVal.s c.maxValue)] else []) ++
  (if c.strictMin ≠ "" then [("strictMinEnabled", RVal.b (decide (pyLower c.strictMin = "true")))] else []) ++
  (if c.strictMax ≠ "" then [("strictMaxEnabled", RVal.b (decide (pyLower c.strictMax = "true")))] else []) ++
  (if c.sqlExpr ≠ "" then
    [(if c.expectation = "sqlAssertion" then "sqlStatement" else "sqlExpression", RVal.s c.sqlExpr)]
  else []) ++
  (if c.regex ≠ "" then [("regex", RVal.s c.regex)] else []) ++
  (if pyTruthy c.setVals then [("values", c.setVals)] else [])

/-- One compiled rule document (lines 373-416): the expectation-kind key
first, then the conditional scalar fields in source order. -/
def buildRule (c : RuleCells) : Rule :=
  (c.expectation, Entry.nested (nestedFields c)) ::
  ((if c.dimension ≠ "" then [("dimension", Entry.scalar (RVal.s c.dimension))] else []) ++
   (if c.column ≠ "" then [("column", Entry.scalar (RVal.s c.column))] else []) ++
   (if pyTruthy c.threshold then [("threshold", Entry.scalar c.threshold)] else []) ++
   (if c.ignoreNull ≠ "" then
     [("ignoreNull", Entry.scalar (RVal.b (decide (pyLower c.ignoreNull = "true"))))]
   else []))

/-- Compilation of a single ColumnLevel row into its rule document:
accumulation (lines 301-315) followed by rule shaping (lines 373-416). -/
def compileRow (r : ColumnRowF) : Option Rule :=
  (mkCells r).map buildRule

/-- The condition guarding the export block (lines 421-425). -/
def exportsOk (a : GroupAcc) : Prop :=
  a.expProject ≠ "" ∧ pyStrip a.expProject ≠ "" ∧
  a.expDataset ≠ "" ∧ pyStrip a.expDataset ≠ "" ∧
  a.expTable ≠ "" ∧ pyStrip a.expTable ≠ ""

instance (a : GroupAcc) : Decidable (exportsOk a) := by
  unfold exportsOk
  infer_instance

/-- The composed BigQuery resource path of the export destination. -/
def resultsTablePath (p d t : String) : String :=
  "//bigquery.googleapis.com/projects/" ++ p ++ "/datasets/" ++ d ++ "/tables/" ++ t

/-- One emitted document (lines 360-438): optional row filter, optional
sampling percentage, the rules, and the optional export block. -/
def buildDoc (a : GroupAcc) : Doc :=
  (if a.partitionFilter ≠ "" then [("rowFilter", TVal.s a.partitionFilter)] else []) ++
  (if a.dataSampling ≠ "" then [("samplingPercent", TVal.s a.dataSampling)] else []) ++
  [("rules", TVal.rules (a.cells.map buildRule))] ++
  (if exportsOk a then
    [("postScanActions",
      TVal.map1 [("bigqueryExport", [("resultsTable", resultsTablePath a.expProject a.expDataset a.expTable)])])]
  else [])

/-- The full compile pipeline on fillna("") rows: every entry carries the
group-key string, the derived document name and the document, in
emission order. -/
def processExcel (cols : List ColumnRowF) (tbls : List TableRowF) :
    Option (List (String × String × Doc)) :=
  (compileGroups cols tbls).map
    (fun d => d.map (fun p => (p.1, nameOf p.1 p.2.scheduleInterval, buildDoc p.2)))

/-- The number of rules of a document. -/
def rulesLen (d : Doc) : Nat :=
  match docLookup d "rules" with
  | some (TVal.rules rs) => rs.length
  | _ => 0

/-- The tri-state flags of a ColumnLevel row all lie in the accepted
set. -/
def flagsOk (r : ColumnRow) : Prop :=
  pyUpper (pyStrip (pyStr r.ignoreNullValues)) ∈ triStateAccepted ∧
  pyUpper (pyStrip (pyStr r.strictRangeMinValue)) ∈ triStateAccepted ∧
  pyUpper (pyStrip (pyStr r.strictRangeMaxValue)) ∈ triStateAccepted

/-- Push a list of row cells one by one (the effect of the inner row
loop on one group). -/
def pushList (d : List (String × GroupAcc)) (ks : String) (a0 : GroupAcc)
    (cs : List RuleCells) : List (String × GroupAcc) :=
  cs.foldl (fun dd c => pushRow dd ks a0 c) d

/-- A ColumnLevel row, at the validation stage, that passes every
check. -/
def exRowValid : ColumnRow :=
  { gcpProjectId := some "p", bqDatasetId := some "d", bqTableName := some "t",
    columnName := some "c", ruleName := some "r1", ruleDescription := some "desc",
    dqRule := some "UNIQUE", ignoreNullValues := none, threshhold := none,
    rangeMinValue := none, strictRangeMinValue := none, rangeMaxValue := none,
    strictRangeMaxValue := none, setValues := none, regularExpression := none,
    sqlExpression := none }

/-- The same row with the literal text nan in the ignore-null flag. -/
def exRowNanFlag : ColumnRow :=
  { exRowValid with ignoreNullValues := some "nan" }

/-- The same row with a flag value outside the accepted set. -/
def exRowBadFlag : ColumnRow :=
  { exRowValid with ignoreNullValues := some "maybe" }

/-- A compile-stage ColumnLevel row (cells after fillna("")). -/
def exBaseF : ColumnRowF :=
  { gcpProjectId := "p", bqDatasetId := "d", bqTableName := "t",
    columnName := "c1", ruleName := "rule1", ruleDescription := "desc1",
    dqRule := "UNIQUE", ignoreNullValues := "", threshhold := "",
    rangeMinValue := "", strictRangeMinValue := "", rangeMaxValue := "",
    strictRangeMaxValue := "", setValues := "", regularExpression := "",
    sqlExpression := "" }

/-- A compile-stage TableLevel row with all optional fields empty. -/
def exBaseT : TableRowF :=
  { gcpProjectId := "p", bqDatasetId := "d", bqTableName := "t",
    partitionFilterCondition := "", dataSamplingPct := "", scheduleInterval := "",
    dqExportGcpProjectId := "", dqExportBqDatasetId := "", dqExportBqTableName := "" }

/-- A NOT_NULL row with non-empty rule name, description and a zero
threshold. -/
def exRowC1 : ColumnRowF :=
  { exBaseF with dqRule := "NOT_NULL", ignoreNullValues := "FALSE", threshhold := "0" }

/-- A row whose rule type is written in lower case; it passes the
validator (which uppercases before the enum check). -/
def exRowC2 : ColumnRowF :=
  { exBaseF with dqRule := "range", rangeMinValue := "0", rangeMaxValue := "100" }

/-- The same row with the rule type stored verbatim as the enum text. -/
def exRowC2w : ColumnRowF :=
  { exBaseF with dqRule := "RANGE", rangeMinValue := "0", rangeMaxValue := "100" }

/-- Two rows whose identity triples occur in descending order. -/
def exRowsC3 : List ColumnRowF :=
  [{ exBaseF with gcpProjectId := "b" }, { exBaseF with gcpProjectId := "a" }]

/-- A TableLevel row with a sampling percentage. -/
def exTblSamp : TableRowF :=
  { exBaseT with dataSamplingPct := "50" }

/-- A TableLevel row whose export project is a blank (whitespace-only)
non-empty string. -/
def exTblExpBlank : TableRowF :=
  { exBaseT with
    dqExportGcpProjectId := " "
    dqExportBqDatasetId := "y"
    dqExportBqTableName := "z" }

/-- A TableLevel row with a complete export destination. -/
def exTblExpFull : TableRowF :=
  { exBaseT with
    dqExportGcpProjectId := "x"
    dqExportBqDatasetId := "y"
    dqExportBqTableName := "z" }

/-- A TableLevel row whose schedule descriptor is whitespace only. -/
def exTblSchedWs : TableRowF :=
  { exBaseT with scheduleInterval := " " }

/-- Two rows with distinct identity triples that share one group-key
string "a~b~c~d". -/
def exColsC9 : List ColumnRowF :=
  [{ exBaseF with gcpProjectId := "a", bqDatasetId := "b~c", bqTableName := "d" },
   { exBaseF with gcpProjectId := "a~b", bqDatasetId := "c", bqTableName := "d" }]

/-- A NOT_NULL row with every optional field empty. -/
def exRowC10 : ColumnRowF :=
  { exBaseF with dqRule := "NOT_NULL" }

/-- A second row of the same group as exBaseF. -/
def exRowW9 : ColumnRowF :=
  { exBaseF with ruleName := "rule2" }

/-- Two rows of one group. -/
def exColsW9 : List ColumnRowF :=
  [exBaseF, exRowW9]

/-- The rule document compiled from a bare UNIQUE row of exBaseF. -/
def exRuleUnique : Rule :=
  [("uniquenessExpectation", Entry.nested []),
   ("dimension", Entry.scalar (RVal.s "UNIQUENESS")),
   ("column", Entry.scalar (RVal.s "c1"))]

/-- The document compiled from exColsW9 with no TableLevel metadata. -/
def exDocW9 : Doc :=
  [("rules", TVal.rules [exRuleUnique, exRuleUnique])]

/-- The document compiled from exBaseF with exTblSamp metadata. -/
def exDocW5 : Doc :=
  [("samplingPercent", TVal.s "50"), ("rules", TVal.rules [exRuleUnique])]

/-- The document compiled from exBaseF with exTblExpFull metadata. -/
def exDocW6 : Doc :=
  [("rules", TVal.rules [exRuleUnique]),
   ("postScanActions",
    TVal.map1 [("bigqueryExport",
      [("resultsTable", "//bigquery.googleapis.com/projects/x/datasets/y/tables/z")])])]

theorem mapM_some_length {α β : Type} {f : α → Option β} :
    ∀ {l : List α} {l2 : List β}, l.mapM f = some l2 → l2.length = l.length := by
  intro l
  induction l with
  | nil =>
    intro l2 h
    simp only [List.mapM_nil, pure, Option.some.injEq] at h
    simp [← h]
  | cons a l ih =>
    intro l2 h
    rw [List.mapM_cons] at h
    cases hf : f a with
    | none => rw [hf] at h; simp at h
    | some b =>
      rw [hf] at h
      cases hm : l.mapM f with
      | none => rw [hm] at h; simp at h
      | some bs =>
        rw [hm] at h
        simp only [Option.bind_eq_bind, Option.some_bind, pure, Option.some.injEq] at h
        simp [← h, ih hm]

theorem mapM_some_mem {α β : Type} {f : α → Option β} :
    ∀ {l : List α} {l2 : List β}, l.mapM f = some l2 → ∀ {y}, y ∈ l2 → ∃ x ∈ l, f x = some y := by
  intro l
  induction l with
  | nil =>
    intro l2 h y hy
    simp only [List.mapM_nil, pure, Option.some.injEq] at h
    rw [← h] at hy
    simp at hy
  | cons a l ih =>
    intro l2 h y hy
    rw [List.mapM_cons] at h
    cases hf : f a with
    | none => rw [hf] at h; simp at h
    | some b =>
      rw [hf] at h
      cases hm : l.mapM f with
      | none => rw [hm] at h; simp at h
      | some bs =>
        rw [hm] at h
        simp only [Option.bind_eq_bind, Option.some_bind, pure, Option.some.injEq] at h
        rw [← h] at hy
        rcases List.mem_cons.mp hy with hy | hy
        · exact ⟨a, List.mem_cons_self a l, hy ▸ hf⟩
        · obtain ⟨x, hx, hfx⟩ := ih hm hy
          exact ⟨x, List.mem_cons_of_mem a hx, hfx⟩

theorem mapM_map_eq {α β γ : Type} {f : α → Option β} {g : β → γ} {h : α → γ}
    (hg : ∀ a b, f a = some b → g b = h a) :
    ∀ {l : List α} {l2 : List β}, l.mapM f = some l2 → l2.map g = l.map h := by
  intro l
  induction l with
  | nil =>
    intro l2 hl
    simp only [List.mapM_nil, pure, Option.some.injEq] at hl
    simp [← hl]
  | cons a l ih =>
    intro l2 hl
    rw [List.mapM_cons] at hl
    cases hf : f a with
    | none => rw [hf] at hl; simp at hl
    | some b =>
      rw [hf] at hl
      cases hm : l.mapM f with
      | none => rw [hm] at hl; simp at hl
      | some bs =>
        rw [hm] at hl
        simp only [Option.bind_eq_bind, Option.some_bind, pure, Option.some.injEq] at hl
        rw [← hl]
        simp [hg a b hf, ih hm]

theorem firstErrFrom_none_iff {α : Type} {f : Nat → α → Option String} :
    ∀ {l : List α} {n : Nat},
      firstErrFrom f n l = none ↔ ∀ i x, l[i]? = some x → f (n + i) x = none := by
  intro l
  induction l with
  | nil => intro n; simp [firstErrFrom]
  | cons a l ih =>
    intro n
    constructor
    · intro h i x hx
      unfold firstErrFrom at h
      cases hfa : f n a with
      | some e => rw [hfa] at h; simp at h
      | none =>
        rw [hfa] at h
        match i, hx with
        | 0, hx =>
          simp only [List.getElem?_cons_zero, Option.some.injEq] at hx
          rw [← hx]
          simpa using hfa
        | i + 1, hx =>
          rw [List.getElem?_cons_succ] at hx
          have := (ih.mp h) i x hx
          have harith : n + 1 + i = n + (i + 1) := by omega
          rw [harith] at this
          exact this
    · intro h
      unfold firstErrFrom
      cases hfa : f n a with
      | some e =>
        have := h 0 a (by simp)
        rw [Nat.add_zero] at this
        rw [this] at hfa
        exact absurd hfa (by simp)
      | none =>
        apply ih.mpr
        intro i x hx
        have := h (i + 1) x (by rw [List.getElem?_cons_succ]; exact hx)
        have harith : n + (i + 1) = n + 1 + i := by omega
        rw [harith] at this
        exact this

theorem firstErrFrom_fires {α : Type} {f : Nat → α → Option String} :
    ∀ {l : List α} {n i : Nat} {r : α} {e : String},
      l[i]? = some r →
      (∀ j x, j < i → l[j]? = some x → f (n + j) x = none) →
      f (n + i) r = some e →
      firstErrFrom f n l = some e := by
  intro l
  induction l with
  | nil => intro n i r e hr; simp at hr
  | cons a l ih =>
    intro n i r e hr hprev hfire
    match i, hr, hfire with
    | 0, hr, hfire =>
      simp only [List.getElem?_cons_zero, Option.some.injEq] at hr
      unfold firstErrFrom
      rw [← hr] at hfire
      rw [Nat.add_zero] at hfire
      rw [hfire]
    | i + 1, hr, hfire =>
      rw [List.getElem?_cons_succ] at hr
      unfold firstErrFrom
      have h0 : f n a = none := by
        have := hprev 0 a (Nat.succ_pos i) (by simp)
        rwa [Nat.add_zero] at this
      rw [h0]
      apply ih hr
      · intro j x hj hx
        have := hprev (j + 1) x (by omega) (by rw [List.getElem?_cons_succ]; exact hx)
        have harith : n + (j + 1) = n + 1 + j := by omega
        rwa [harith] at this
      · have harith : n + (i + 1) = n + 1 + i := by omega
        rwa [harith] at hfire

theorem firstErr_none_iff {α : Type} {f : Nat → α → Option String} {l : List α} :
    firstErr f l = none ↔ ∀ i x, l[i]? = some x → f i x = none := by
  unfold firstErr
  rw [firstErrFrom_none_iff]
  constructor
  · intro h i x hx
    have := h i x hx
    rwa [Nat.zero_add] at this
  · intro h i x hx
    rw [Nat.zero_add]
    exact h i x hx

theorem firstErr_fires {α : Type} {f : Nat → α → Option String} {l : List α} {i : Nat}
    {r : α} {e : String} (hr : l[i]? = some r)
    (hprev : ∀ j x, j < i → l[j]? = some x → f j x = none)
    (hfire : f i r = some e) : firstErr f l = some e := by
  unfold firstErr
  apply firstErrFrom_fires hr
  · intro j x hj hx
    rw [Nat.zero_add]
    exact hprev j x hj hx
  · rw [Nat.zero_add]
    exact hfire

theorem listLtB_trans : ∀ {a b c : List Char},
    listLtB a b = true → listLtB b c = true → listLtB a c = true := by
  intro a
  induction a with
  | nil =>
    intro b c h1 h2
    cases b with
    | nil => simp [listLtB] at h1
    | cons y ys =>
      cases c with
      | nil => simp [listLtB] at h2
      | cons z zs => simp [listLtB]
  | cons x xs ih =>
    intro b c h1 h2
    cases b with
    | nil => simp [listLtB] at h1
    | cons y ys =>
      cases c with
      | nil => simp [listLtB] at h2
      | cons z zs =>
        unfold listLtB at h1 h2 ⊢
        by_cases hxy : x.toNat < y.toNat
        · by_cases hyz : y.toNat < z.toNat
          · rw [if_pos (Nat.lt_trans hxy hyz)]
          · rw [if_pos hxy] at h1
            rw [if_neg hyz] at h2
            by_cases hzy : z.toNat < y.toNat
            · rw [if_pos hzy] at h2
              simp at h2
            · have hyzeq : y.toNat = z.toNat := by omega
              rw [if_pos (hyzeq ▸ hxy)]
        · rw [if_neg hxy] at h1
          by_cases hyx : y.toNat < x.toNat
          · rw [if_pos hyx] at h1
            simp at h1
          · rw [if_neg hyx] at h1
            have hxyeq : x.toNat = y.toNat := by omega
            by_cases hyz : y.toNat < z.toNat
            · rw [if_pos (hxyeq ▸ hyz)]
            · rw [if_neg hyz] at h2
              by_cases hzy : z.toNat < y.toNat
              · rw [if_pos hzy] at h2
                simp at h2
              · rw [if_neg hzy] at h2
                rw [if_neg (hxyeq ▸ hyz), if_neg (fun h => (hxyeq ▸ hzy : ¬z.toNat < y.toNat) (hxyeq ▸ h))]
                exact ih h1 h2

theorem listLtB_connected : ∀ {a b : List Char},
    a ≠ b → listLtB a b = false → listLtB b a = true := by
  intro a
  induction a with
  | nil =>
    intro b hne h
    cases b with
    | nil => exact absurd rfl hne
    | cons y ys => simp [listLtB] at h
  | cons x xs ih =>
    intro b hne h
    cases b with
    | nil => simp [listLtB]
    | cons y ys =>
      unfold listLtB at h ⊢
      by_cases hxy : x.toNat < y.toNat
      · rw [if_pos hxy] at h
        simp at h
      · rw [if_neg hxy] at h
        by_cases hyx : y.toNat < x.toNat
        · rw [if_pos hyx]
        · rw [if_neg hyx] at h
          rw [if_neg hyx, if_neg hxy]
          have hceq : x = y := by
            have hnat : x.toNat = y.toNat := by omega
            exact Char.ext (UInt32.ext hnat)
          have htne : xs ≠ ys := by
            intro e
            exact hne (by rw [hceq, e])
          exact ih htne h

theorem strLtB_trans {a b c : String} (h1 : strLtB a b = true) (h2 : strLtB b c = true) :
    strLtB a c = true :=
  listLtB_trans h1 h2

theorem strLtB_connected {a b : String} (hne : a ≠ b) (h : strLtB a b = false) :
    strLtB b a = true :=
  listLtB_connected (fun e => hne (String.ext e)) h

theorem strPairLtB_trans {a b c : String × String} (h1 : strPairLtB a b = true)
    (h2 : strPairLtB b c = true) : strPairLtB a c = true := by
  simp only [strPairLtB, Bool.or_eq_true, Bool.and_eq_true, decide_eq_true_eq] at h1 h2 ⊢
  rcases h1 with h1 | ⟨e1, h1⟩ <;> rcases h2 with h2 | ⟨e2, h2⟩
  · exact Or.inl (strLtB_trans h1 h2)
  · exact Or.inl (by rw [← e2]; exact h1)
  · exact Or.inl (by rw [e1]; exact h2)
  · exact Or.inr ⟨e1.trans e2, strLtB_trans h1 h2⟩

theorem strPairLtB_connected {a b : String × String} (hne : a ≠ b)
    (h : strPairLtB a b = false) : strPairLtB b a = true := by
  simp only [strPairLtB, Bool.or_eq_false_iff, Bool.and_eq_false_iff] at h
  obtain ⟨hf, hsnd⟩ := h
  simp only [strPairLtB, Bool.or_eq_true, Bool.and_eq_true, decide_eq_true_eq]
  by_cases heq : a.1 = b.1
  · have hsne : a.2 ≠ b.2 := by
      intro hs
      exact hne (Prod.ext heq hs)
    rcases hsnd with hd | hs
    · simp [heq] at hd
    · exact Or.inr ⟨heq.symm, strLtB_connected hsne hs⟩
  · exact Or.inl (strLtB_connected heq hf)

theorem keyLtB_trans {a b c : Key} (h1 : keyLtB a b = true) (h2 : keyLtB b c = true) :
    keyLtB a c = true := by
  simp only [keyLtB, Bool.or_eq_true, Bool.and_eq_true, decide_eq_true_eq] at h1 h2 ⊢
  rcases h1 with h1 | ⟨e1, h1⟩ <;> rcases h2 with h2 | ⟨e2, h2⟩
  · exact Or.inl (strLtB_trans h1 h2)
  · exact Or.inl (by rw [← e2]; exact h1)
  · exact Or.inl (by rw [e1]; exact h2)
  · exact Or.inr ⟨e1.trans e2, strPairLtB_trans h1 h2⟩

theorem keyLtB_connected {a b : Key} (hne : a ≠ b) (h : keyLtB a b = false) :
    keyLtB b a = true := by
  simp only [keyLtB, Bool.or_eq_false_iff, Bool.and_eq_false_iff] at h
  obtain ⟨hf, hsnd⟩ := h
  simp only [keyLtB, Bool.or_eq_true, Bool.and_eq_true, decide_eq_true_eq]
  by_cases heq : a.1 = b.1
  · have hsne : a.2 ≠ b.2 := by
      intro hs
      exact hne (Prod.ext heq hs)
    rcases hsnd with hd | hs
    · simp [heq] at hd
    · exact Or.inr ⟨heq.symm, strPairLtB_connected hsne hs⟩
  · exact Or.inl (strLtB_connected heq hf)

theorem mem_insertSorted {k x : Key} : ∀ {l : List Key},
    x ∈ insertSorted k l ↔ x = k ∨ x ∈ l := by
  intro l
  induction l with
  | nil => simp [insertSorted]
  | cons h t ih =>
    unfold insertSorted
    by_cases hkh : keyLtB k h = true
    · simp only [if_pos hkh, List.mem_cons]
    · simp only [if_neg hkh, List.mem_cons, ih]
      tauto

theorem pairwise_insertSorted {k : Key} :
    ∀ {l : List Key}, l.Pairwise (fun a b => keyLtB a b = true) → k ∉ l →
      (insertSorted k l).Pairwise (fun a b => keyLtB a b = true) := by
  intro l
  induction l with
  | nil => intro _ _; simp [insertSorted]
  | cons h t ih =>
    intro hs hk
    have hkh : k ≠ h := by
      intro e
      exact hk (e ▸ List.mem_cons_self h t)
    have hkt : k ∉ t := fun m => hk (List.mem_cons_of_mem h m)
    rcases List.pairwise_cons.mp hs with ⟨hhd, htl⟩
    unfold insertSorted
    by_cases hlt : keyLtB k h = true
    · rw [if_pos hlt]
      refine List.pairwise_cons.mpr ⟨?_, hs⟩
      intro x hx
      rcases List.mem_cons.mp hx with hx | hx
      · rw [hx]; exact hlt
      · exact keyLtB_trans hlt (hhd x hx)
    · rw [if_neg hlt]
      refine List.pairwise_cons.mpr ⟨?_, ih htl hkt⟩
      intro x hx
      rcases mem_insertSorted.mp hx with hx | hx
      · rw [hx]
        exact keyLtB_connected hkh (Bool.not_eq_true _ ▸ hlt)
      · exact hhd x hx

theorem mem_sortKeys {x : Key} : ∀ {l : List Key}, x ∈ sortKeys l ↔ x ∈ l := by
  intro l
  induction l with
  | nil => simp [sortKeys]
  | cons a l ih =>
    have : sortKeys (a :: l) = insertSorted a (sortKeys l) := rfl
    rw [this, mem_insertSorted, ih, List.mem_cons]

theorem sortKeys_pairwise : ∀ {l : List Key}, l.Nodup →
    (sortKeys l).Pairwise (fun a b => keyLtB a b = true) := by
  intro l
  induction l with
  | nil => intro _; simp [sortKeys]
  | cons a l ih =>
    intro hnd
    rcases List.nodup_cons.mp hnd with ⟨ha, hl⟩
    have : sortKeys (a :: l) = insertSorted a (sortKeys l) := rfl
    rw [this]
    exact pairwise_insertSorted (ih hl) (fun m => ha (mem_sortKeys.mp m))

theorem mem_dedupFirstAux : ∀ {l : List Key} {seen : List Key} {x : Key},
    x ∈ dedupFirstAux seen l → x ∈ l := by
  intro l
  induction l with
  | nil => intro seen x h; simp [dedupFirstAux] at h
  | cons k rest ih =>
    intro seen x h
    unfold dedupFirstAux at h
    by_cases hk : k ∈ seen
    · rw [if_pos hk] at h
      exact List.mem_cons_of_mem k (ih h)
    · rw [if_neg hk] at h
      rcases List.mem_cons.mp h with h | h
      · exact h ▸ List.mem_cons_self k rest
      · exact List.mem_cons_of_mem k (ih h)

theorem not_mem_dedupFirstAux : ∀ {l seen : List Key} {x : Key},
    x ∈ seen → x ∉ dedupFirstAux seen l := by
  intro l
  induction l with
  | nil => intro seen x _ h; simp [dedupFirstAux] at h
  | cons k rest ih =>
    intro seen x hx h
    unfold dedupFirstAux at h
    by_cases hk : k ∈ seen
    · rw [if_pos hk] at h
      exact ih hx h
    · rw [if_neg hk] at h
      rcases List.mem_cons.mp h with h | h
      · exact hk (h ▸ hx)
      · exact ih (List.mem_cons_of_mem k hx) h

theorem nodup_dedupFirstAux : ∀ {l seen : List Key}, (dedupFirstAux seen l).Nodup := by
  intro l
  induction l with
  | nil => intro seen; simp [dedupFirstAux]
  | cons k rest ih =>
    intro seen
    unfold dedupFirstAux
    by_cases hk : k ∈ seen
    · rw [if_pos hk]
      exact ih
    · rw [if_neg hk]
      refine List.nodup_cons.mpr ⟨?_, ih⟩
      exact not_mem_dedupFirstAux (List.mem_cons_self k seen)

theorem groupAcc_cells_append_nil (a : GroupAcc) : { a with cells := a.cells ++ [] } = a := by
  cases a
  simp

theorem pushRow_fresh {ks : String} {a0 : GroupAcc} {c : RuleCells} :
    ∀ {d : List (String × GroupAcc)}, ks ∉ d.map Prod.fst →
      pushRow d ks a0 c = d ++ [(ks, { a0 with cells := a0.cells ++ [c] })] := by
  intro d
  induction d with
  | nil => intro _; rfl
  | cons p rest ih =>
    intro h
    obtain ⟨k, a⟩ := p
    have hk : k ≠ ks := by
      intro e
      exact h (by simp [e])
    unfold pushRow
    rw [if_neg hk]
    rw [ih (fun m => h (by simp [m]))]
    simp

theorem pushRow_existing {ks : String} {a0 : GroupAcc} {c : RuleCells} :
    ∀ {d1 : List (String × GroupAcc)}, ks ∉ d1.map Prod.fst →
      ∀ (b : GroupAcc) (d2 : List (String × GroupAcc)),
        pushRow (d1 ++ (ks, b) :: d2) ks a0 c
          = d1 ++ (ks, { b with cells := b.cells ++ [c] }) :: d2 := by
  intro d1
  induction d1 with
  | nil =>
    intro _ b d2
    simp only [List.nil_append]
    unfold pushRow
    rw [if_pos rfl]
  | cons p rest ih =>
    intro h b d2
    obtain ⟨k, a⟩ := p
    have hk : k ≠ ks := by
      intro e
      exact h (by simp [e])
    simp only [List.cons_append]
    unfold pushRow
    rw [if_neg hk]
    rw [ih (fun m => h (by simp [m])) b d2]

theorem pushList_existing {ks : String} {a0 : GroupAcc} :
    ∀ (cs : List RuleCells) {d1 : List (String × GroupAcc)}, ks ∉ d1.map Prod.fst →
      ∀ (b : GroupAcc) (d2 : List (String × GroupAcc)),
        pushList (d1 ++ (ks, b) :: d2) ks a0 cs
          = d1 ++ (ks, { b with cells := b.cells ++ cs }) :: d2 := by
  intro cs
  induction cs with
  | nil =>
    intro d1 h b d2
    show d1 ++ (ks, b) :: d2 = d1 ++ (ks, { b with cells := b.cells ++ [] }) :: d2
    rw [groupAcc_cells_append_nil]
  | cons c cs ih =>
    intro d1 h b d2
    show pushList (pushRow (d1 ++ (ks, b) :: d2) ks a0 c) ks a0 cs = _
    rw [pushRow_existing h b d2]
    rw [ih h _ d2]
    simp

theorem pushList_fresh {ks : String} {a0 : GroupAcc} {cs : List RuleCells}
    {d : List (String × GroupAcc)} (h : ks ∉ d.map Prod.fst) (h0 : a0.cells = [])
    (hcs : cs ≠ []) :
    pushList d ks a0 cs = d ++ [(ks, { a0 with cells := cs })] := by
  cases cs with
  | nil => exact absurd rfl hcs
  | cons c cs =>
    show pushList (pushRow d ks a0 c) ks a0 cs = _
    rw [pushRow_fresh h]
    have := @pushList_existing ks a0 cs d h { a0 with cells := a0.cells ++ [c] } []
    rw [this]
    simp [h0]

theorem foldlM_push_eq (ks : String) (a0 : GroupAcc) :
    ∀ (rs : List ColumnRowF) (d : List (String × GroupAcc)),
      rs.foldlM (fun d2 r => (mkCells r).map (fun c => pushRow d2 ks a0 c)) d
        = (rs.mapM mkCells).map (fun cs => pushList d ks a0 cs) := by
  intro rs
  induction rs with
  | nil =>
    intro d
    simp only [List.foldlM_nil, List.mapM_nil]
    rfl
  | cons r rs ih =>
    intro d
    rw [List.foldlM_cons, List.mapM_cons]
    cases hc : mkCells r with
    | none => simp [hc]
    | some c =>
      have hLHS := ih (pushRow d ks a0 c)
      cases hm : rs.mapM mkCells with
      | none =>
        rw [hm] at hLHS
        simp [hc, hm, hLHS]
      | some cs =>
        rw [hm] at hLHS
        simp only [Option.map_some'] at hLHS
        simp [hc, hm, hLHS, pushList]

theorem groupRows_ne_nil {cols : List ColumnRowF} {k : Key}
    (hk : k ∈ groupKeys cols) : groupRows cols k ≠ [] := by
  have h1 : k ∈ firstSeenKeys cols := mem_sortKeys.mp hk
  have h2 : k ∈ cols.map keyOf := mem_dedupFirstAux h1
  obtain ⟨r, hr, hkr⟩ := List.mem_map.mp h2
  intro h0
  have hmem : r ∈ groupRows cols k := List.mem_filter.mpr ⟨hr, by simp [hkr]⟩
  rw [h0] at hmem
  simp at hmem

theorem compileGroups_core (cols : List ColumnRowF) (tbls : List TableRowF) :
    ∀ (keys : List Key) (d0 : List (String × GroupAcc)),
      (∀ k ∈ keys, keyStr k ∉ d0.map Prod.fst) →
      (keys.map keyStr).Nodup →
      (∀ k ∈ keys, groupRows cols k ≠ []) →
      (keys.foldlM (fun d k =>
          (groupRows cols k).foldlM
            (fun d2 r => (mkCells r).map (fun c => pushRow d2 (keyStr k) (newAcc tbls k) c)) d)
        d0)
      = (keys.mapM (fun k =>
          ((groupRows cols k).mapM mkCells).map (fun cs => (keyStr k, mkAcc tbls k cs)))).map
          (fun es => d0 ++ es) := by
  intro keys
  induction keys with
  | nil =>
    intro d0 _ _ _
    show some d0 = Option.map (fun es => d0 ++ es) (some [])
    simp
  | cons k keys ih =>
    intro d0 hfresh hnd hne
    rw [List.map_cons] at hnd
    rcases List.nodup_cons.mp hnd with ⟨hknotin, hndtail⟩
    rw [List.foldlM_cons, List.mapM_cons]
    rw [foldlM_push_eq]
    cases hcs : (groupRows cols k).mapM mkCells with
    | none => simp
    | some cs =>
      have hcs_ne : cs ≠ [] := by
        intro h0
        have hlen := mapM_some_length hcs
        rw [h0] at hlen
        apply hne k (List.mem_cons_self k keys)
        cases hrows : groupRows cols k with
        | nil => rfl
        | cons a b =>
          rw [hrows] at hlen
          simp at hlen
      have hpf : pushList d0 (keyStr k) (newAcc tbls k) cs
          = d0 ++ [(keyStr k, mkAcc tbls k cs)] :=
        pushList_fresh (hfresh k (List.mem_cons_self k keys)) rfl hcs_ne
      simp only [Option.map_some', Option.bind_eq_bind, Option.some_bind]
      rw [hpf]
      have hfresh1 : ∀ x ∈ keys, keyStr x ∉ (d0 ++ [(keyStr k, mkAcc tbls k cs)]).map Prod.fst := by
        intro x hx
        rw [List.map_append]
        intro hm
        rcases List.mem_append.mp hm with hm | hm
        · exact hfresh x (List.mem_cons_of_mem k hx) hm
        · simp at hm
          exact hknotin (hm ▸ List.mem_map_of_mem keyStr hx)
      rw [ih (d0 ++ [(keyStr k, mkAcc tbls k cs)]) hfresh1 hndtail
        (fun x hx => hne x (List.mem_cons_of_mem k hx))]
      cases hm : keys.mapM (fun k =>
          ((groupRows cols k).mapM mkCells).map (fun cs => (keyStr k, mkAcc tbls k cs))) with
      | none => simp
      | some es => simp

theorem compileGroups_eq {cols : List ColumnRowF} {tbls : List TableRowF}
    (hinj : ((groupKeys cols).map keyStr).Nodup) :
    compileGroups cols tbls
      = (groupKeys cols).mapM (fun k =>
          ((groupRows cols k).mapM mkCells).map (fun cs => (keyStr k, mkAcc tbls k cs))) := by
  unfold compileGroups
  rw [compileGroups_core cols tbls (groupKeys cols) [] (by simp) hinj
    (fun k hk => groupRows_ne_nil hk)]
  cases hm : (groupKeys cols).mapM (fun k =>
      ((groupRows cols k).mapM mkCells).map (fun cs => (keyStr k, mkAcc tbls k cs))) with
  | none => rfl
  | some es => simp

theorem dictGet_not_mem {k dflt : String} :
    ∀ {d : List (String × String)}, k ∉ d.map Prod.fst → dictGet d k dflt = dflt := by
  intro d
  induction d with
  | nil => intro _; rfl
  | cons p rest ih =>
    intro h
    obtain ⟨a, b⟩ := p
    have hk : k ≠ a := by
      intro e
      exact h (by simp [e])
    unfold dictGet
    rw [if_neg hk]
    exact ih (fun m => h (by simp [m]))

theorem dictGet_exp_mem (s : String) :
    dictGet dqRuleExpectationDict s "" ∈
      (["nonNullExpectation", "rangeExpectation", "uniquenessExpectation",
        "rowConditionExpectation", "regexExpectation", "setExpectation",
        "tableConditionExpectation", "sqlAssertion", ""] : List String) := by
  unfold dqRuleExpectationDict
  simp only [dictGet]
  split_ifs <;> simp

theorem exp_ne_scalarKeys (s : String) :
    dictGet dqRuleExpectationDict s "" ≠ "dimension" ∧
    dictGet dqRuleExpectationDict s "" ≠ "column" ∧
    dictGet dqRuleExpectationDict s "" ≠ "threshold" ∧
    dictGet dqRuleExpectationDict s "" ≠ "ignoreNull" ∧
    dictGet dqRuleExpectationDict s "" ≠ "name" ∧
    dictGet dqRuleExpectationDict s "" ≠ "description" := by
  have h := dictGet_exp_mem s
  simp only [List.mem_cons, List.not_mem_nil, or_false] at h
  rcases h with h | h | h | h | h | h | h | h | h <;> rw [h] <;> decide

theorem buildRule_head (c : RuleCells) :
    (buildRule c).head? = some (c.expectation, Entry.nested (nestedFields c)) := rfl

theorem ruleLookup_buildRule (c : RuleCells)
    (h1 : c.expectation ≠ "dimension") (h2 : c.expectation ≠ "column")
    (h3 : c.expectation ≠ "threshold") (h4 : c.expectation ≠ "ignoreNull")
    (h5 : c.expectation ≠ "name") (h6 : c.expectation ≠ "description") :
    ruleLookup (buildRule c) "dimension"
        = (if c.dimension ≠ "" then some (Entry.scalar (RVal.s c.dimension)) else none) ∧
    ruleLookup (buildRule c) "column"
        = (if c.column ≠ "" then some (Entry.scalar (RVal.s c.column)) else none) ∧
    ruleLookup (buildRule c) "threshold"
        = (if pyTruthy c.threshold then some (Entry.scalar c.threshold) else none) ∧
    ruleLookup (buildRule c) "ignoreNull"
        = (if c.ignoreNull ≠ "" then
             some (Entry.scalar (RVal.b (decide (pyLower c.ignoreNull = "true"))))
           else none) ∧
    ruleLookup (buildRule c) "name" = none ∧
    ruleLookup (buildRule c) "description" = none := by
  by_cases hd : c.dimension = "" <;> by_cases hc : c.column = "" <;>
    cases ht : pyTruthy c.threshold <;> by_cases hi : c.ignoreNull = "" <;>
    simp [buildRule, ruleLookup, List.find?_append, List.find?, hd, hc, ht, hi,
      h1, h2, h3, h4, h5, h6]

theorem nestedFields_empty (c : RuleCells) (e1 : c.minValue = "") (e2 : c.maxValue = "")
    (e3 : c.strictMin = "") (e4 : c.strictMax = "") (e5 : c.sqlExpr = "")
    (e6 : c.regex = "") (e7 : pyTruthy c.setVals = false) : nestedFields c = [] := by
  simp [nestedFields, e1, e2, e3, e4, e5, e6, e7]

theorem compileRow_inv {r : ColumnRowF} {rule : Rule} (h : compileRow r = some rule) :
    ∃ c : RuleCells, mkCells r = some c ∧ rule = buildRule c ∧
      c.expectation = dictGet dqRuleExpectationDict r.dqRule "" ∧
      c.dimension = dictGet dqRuleDimensionDict r.dqRule "" ∧
      c.ignoreNull = r.ignoreNullValues ∧
      c.column = r.columnName ∧
      c.minValue = r.rangeMinValue ∧
      c.maxValue = r.rangeMaxValue ∧
      c.strictMin = r.strictRangeMinValue ∧
      c.strictMax = r.strictRangeMaxValue ∧
      c.sqlExpr = r.sqlExpression ∧
      c.regex = r.regularExpression ∧
      c.setVals = (if r.setValues = "" then RVal.s ""
                   else RVal.strs (pySplitComma r.setValues)) ∧
      ((r.threshhold = "" ∧ c.threshold = RVal.s "") ∨
       (r.threshhold ≠ "" ∧ ∃ q, pyFloat r.threshhold = some q ∧ c.threshold = RVal.n q)) := by
  unfold compileRow at h
  rcases Option.map_eq_some'.mp h with ⟨c, hc, hrule⟩
  refine ⟨c, hc, hrule.symm, ?_⟩
  unfold mkCells at hc
  rcases Option.map_eq_some'.mp hc with ⟨thr, hthr, hcstruct⟩
  rw [← hcstruct]
  by_cases hth : r.threshhold = ""
  · rw [if_pos hth] at hthr
    simp only [Option.some.injEq] at hthr
    exact ⟨rfl, rfl, rfl, rfl, rfl, rfl, rfl, rfl, rfl, rfl, rfl,
      Or.inl ⟨hth, by rw [← hthr]⟩⟩
  · rw [if_neg hth] at hthr
    rcases Option.map_eq_some'.mp hthr with ⟨q, hq, hthr2⟩
    exact ⟨rfl, rfl, rfl, rfl, rfl, rfl, rfl, rfl, rfl, rfl, rfl,
      Or.inr ⟨hth, q, hq, by rw [← hthr2]⟩⟩

theorem processExcel_entry {cols : List ColumnRowF} {tbls : List TableRowF}
    {out : List (String × String × Doc)} {ks n : String} {doc : Doc} {k : Key}
    (hinj : ((groupKeys cols).map keyStr).Nodup)
    (hpe : processExcel cols tbls = some out)
    (hm : (ks, n, doc) ∈ out)
    (hks : ks = keyStr k) (hkmem : k ∈ groupKeys cols) :
    ∃ cs, (groupRows cols k).mapM mkCells = some cs ∧
      doc = buildDoc (mkAcc tbls k cs) ∧
      n = nameOf (keyStr k) (metaOf tbls k (fun t => t.scheduleInterval)) := by
  unfold processExcel at hpe
  rcases Option.map_eq_some'.mp hpe with ⟨d, hd, hout⟩
  rw [← hout] at hm
  rcases List.mem_map.mp hm with ⟨p, hp, hpe2⟩
  obtain ⟨pk, pa⟩ := p
  rw [compileGroups_eq hinj] at hd
  obtain ⟨k2, hk2mem, hfk2⟩ := mapM_some_mem hd hp
  rcases Option.map_eq_some'.mp hfk2 with ⟨cs, hcs, hpair⟩
  simp only [Prod.mk.injEq] at hpe2 hpair
  obtain ⟨h1, h2, h3⟩ := hpe2
  obtain ⟨h4, h5⟩ := hpair
  have hk2k : k2 = k := by
    apply List.inj_on_of_nodup_map hinj hk2mem hkmem
    rw [h4, h1, hks]
  subst hk2k
  refine ⟨cs, hcs, ?_, ?_⟩
  · rw [← h3, ← h5]
  · rw [← h2, ← h5, ← h4]
    rfl

theorem docLookup_buildDoc_sampling (a : GroupAcc) :
    docLookup (buildDoc a) "samplingPercent"
      = (if a.dataSampling ≠ "" then some (TVal.s a.dataSampling) else none) := by
  by_cases h1 : a.partitionFilter = "" <;> by_cases h2 : a.dataSampling = "" <;>
    by_cases h3 : exportsOk a <;>
    simp [buildDoc, docLookup, List.find?_append, List.find?, h1, h2, h3]

theorem docLookup_buildDoc_rules (a : GroupAcc) :
    docLookup (buildDoc a) "rules" = some (TVal.rules (a.cells.map buildRule)) := by
  by_cases h1 : a.partitionFilter = "" <;> by_cases h2 : a.dataSampling = "" <;>
    by_cases h3 : exportsOk a <;>
    simp [buildDoc, docLookup, List.find?_append, List.find?, h1, h2, h3]

theorem docLookup_buildDoc_psa (a : GroupAcc) :
    docLookup (buildDoc a) "postScanActions"
      = (if exportsOk a then
          some (TVal.map1 [("bigqueryExport",
            [("resultsTable", resultsTablePath a.expProject a.expDataset a.expTable)])])
         else none) := by
  by_cases h1 : a.partitionFilter = "" <;> by_cases h2 : a.dataSampling = "" <;>
    by_cases h3 : exportsOk a <;>
    simp [buildDoc, docLookup, List.find?_append, List.find?, h1, h2, h3]

theorem ne_empty_of_strip_ne {s : String} (h : pyStrip s ≠ "") : s ≠ "" := by
  intro e
  apply h
  rw [e]
  rfl

theorem flatMap_id_of_not_mem {c : Char} {r : List Char} :
    ∀ {l : List Char}, c ∉ l →
      (l.flatMap (fun ch => if ch = c then r else [ch])) = l := by
  intro l
  induction l with
  | nil => intro _; rfl
  | cons a t ih =>
    intro h
    have ha : a ≠ c := fun e => h (e ▸ List.mem_cons_self a t)
    rw [List.flatMap_cons, if_neg ha, ih (fun m => h (List.mem_cons_of_mem a m))]
    rfl

theorem replaceChar_append (a b : String) (c : Char) (r : String) :
    replaceChar (a ++ b) c r = replaceChar a c r ++ replaceChar b c r := by
  apply String.ext
  show (a ++ b).data.flatMap _ = (String.mk (a.data.flatMap _) ++ String.mk (b.data.flatMap _)).data
  rw [String.data_append, List.flatMap_append, String.data_append]

theorem replaceChar_not_mem {s : String} {c : Char} {r : String} (h : c ∉ s.data) :
    replaceChar s c r = s := by
  apply String.ext
  show s.data.flatMap _ = s.data
  exact flatMap_id_of_not_mem h

theorem keyStr_replace (p d t : String) (hp : '~' ∉ p.data) (hd : '~' ∉ d.data)
    (ht : '~' ∉ t.data) :
    replaceChar (keyStr (p, d, t)) '~' "__" = p ++ "__" ++ d ++ "__" ++ t := by
  show replaceChar (p ++ "~" ++ d ++ "~" ++ t) '~' "__" = _
  rw [replaceChar_append, replaceChar_append, replaceChar_append, replaceChar_append]
  rw [replaceChar_not_mem hp, replaceChar_not_mem hd, replaceChar_not_mem ht]
  have htil : replaceChar "~" '~' "__" = "__" := rfl
  rw [htil]

theorem optionSomeOrElse {α : Type} (a : α) (f : Unit → Option α) :
    (some a).orElse f = some a := rfl

theorem optionNoneOrElse {α : Type} (f : Unit → Option α) :
    (none : Option α).orElse f = f () := rfl

theorem allErr_none_parts {cols : List ColumnRow} {tbls : List TableRow}
    (h : allErr cols tbls = none) :
    firstErr colIdErr cols = none ∧ firstErr tblIdErr tbls = none ∧
    firstErr (crossErr cols) tbls = none ∧ firstErr colRowErr cols = none ∧
    firstErr sampErr tbls = none := by
  unfold allErr at h
  cases h1 : firstErr colIdErr cols with
  | some e => rw [h1] at h; simp [Option.orElse] at h
  | none =>
    rw [h1] at h
    simp only [Option.orElse] at h
    cases h2 : firstErr tblIdErr tbls with
    | some e => rw [h2] at h; simp at h
    | none =>
      rw [h2] at h
      simp only at h
      cases h3 : firstErr (crossErr cols) tbls with
      | some e => rw [h3] at h; simp at h
      | none =>
        rw [h3] at h
        simp only at h
        cases h4 : firstErr colRowErr cols with
        | some e => rw [h4] at h; simp at h
        | none =>
          rw [h4] at h
          simp only at h
          exact ⟨rfl, rfl, rfl, rfl, h⟩

theorem allErr_colRow_fires {cols : List ColumnRow} {tbls : List TableRow} {m : String}
    (h1 : firstErr colIdErr cols = none) (h2 : firstErr tblIdErr tbls = none)
    (h3 : firstErr (crossErr cols) tbls = none) (h4 : firstErr colRowErr cols = some m) :
    allErr cols tbls = some m := by
  unfold allErr
  rw [h1, h2, h3, h4]
  rfl

theorem validateExcel_of_allErr {cols : List ColumnRow} {tbls : List TableRow} {m : String}
    (hne : cols ≠ []) (h : allErr cols tbls = some m) :
    validateExcel cols tbls = (false, m) := by
  unfold validateExcel
  rw [if_neg (by simpa using hne), h]

theorem validateExcel_true_parts {cols : List ColumnRow} {tbls : List TableRow}
    (h : (validateExcel cols tbls).1 = true) :
    cols ≠ [] ∧ allErr cols tbls = none := by
  unfold validateExcel at h
  by_cases he : cols.isEmpty
  · rw [if_pos he] at h
    simp at h
  · rw [if_neg he] at h
    cases ha : allErr cols tbls with
    | some m => rw [ha] at h; simp at h
    | none => exact ⟨by simpa using he, rfl⟩

theorem validateExcel_true_msg {cols : List ColumnRow} {tbls : List TableRow}
    (h : (validateExcel cols tbls).1 = true) :
    validateExcel cols tbls = (true, msgValid) := by
  obtain ⟨hne, ha⟩ := validateExcel_true_parts h
  unfold validateExcel
  rw [if_neg (by simpa using hne), ha]

theorem colRowErr_none_flagsOk {i : Nat} {r : ColumnRow} (h : colRowErr i r = none) :
    flagsOk r := by
  simp only [colRowErr] at h
  by_cases h1 : pyUpper (pyStrip (pyStr r.dqRule)) ∉ validDqRules
  · rw [if_pos h1] at h
    exact absurd h (by simp)
  · rw [if_neg h1] at h
    by_cases h2 : pyUpper (pyStrip (pyStr r.dqRule)) = "NOT_NULL" ∧
        pyUpper (pyStrip (pyStr r.ignoreNullValues)) = "TRUE"
    · rw [if_pos h2] at h
      exact absurd h (by simp)
    · rw [if_neg h2] at h
      by_cases h3 : pyUpper (pyStrip (pyStr r.ignoreNullValues)) ∉ triStateAccepted
      · rw [if_pos h3] at h
        exact absurd h (by simp)
      · rw [if_neg h3] at h
        cases hth : thrErr i r with
        | some e =>
          rw [hth, optionSomeOrElse] at h
          exact absurd h (by simp)
        | none =>
          rw [hth, optionNoneOrElse] at h
          by_cases h4 : pyUpper (pyStrip (pyStr r.strictRangeMinValue)) ∉ triStateAccepted
          · rw [if_pos h4] at h
            exact absurd h (by simp)
          · rw [if_neg h4] at h
            by_cases h5 : pyUpper (pyStrip (pyStr r.strictRangeMaxValue)) ∉ triStateAccepted
            · rw [if_pos h5] at h
              exact absurd h (by simp)
            · exact ⟨not_not.mp h3, not_not.mp h4, not_not.mp h5⟩

theorem colRowErr_fires_ignore {i : Nat} {r : ColumnRow}
    (hdq : pyUpper (pyStrip (pyStr r.dqRule)) ∈ validDqRules)
    (hnn : ¬(pyUpper (pyStrip (pyStr r.dqRule)) = "NOT_NULL" ∧
      pyUpper (pyStrip (pyStr r.ignoreNullValues)) = "TRUE"))
    (hbad : pyUpper (pyStrip (pyStr r.ignoreNullValues)) ∉ triStateAccepted) :
    colRowErr i r = some (msgIgnoreTri i) := by
  simp only [colRowErr]
  rw [if_neg (not_not_intro hdq), if_neg hnn, if_pos hbad]

theorem colRowErr_fires_strictMin {i : Nat} {r : ColumnRow}
    (hdq : pyUpper (pyStrip (pyStr r.dqRule)) ∈ validDqRules)
    (hnn : ¬(pyUpper (pyStrip (pyStr r.dqRule)) = "NOT_NULL" ∧
      pyUpper (pyStrip (pyStr r.ignoreNullValues)) = "TRUE"))
    (hig : pyUpper (pyStrip (pyStr r.ignoreNullValues)) ∈ triStateAccepted)
    (hth : thrErr i r = none)
    (hbad : pyUpper (pyStrip (pyStr r.strictRangeMinValue)) ∉ triStateAccepted) :
    colRowErr i r = some (msgStrictMinTri i) := by
  simp only [colRowErr]
  rw [if_neg (not_not_intro hdq), if_neg hnn, if_neg (not_not_intro hig), hth,
    optionNoneOrElse, if_pos hbad]

theorem colRowErr_fires_strictMax {i : Nat} {r : ColumnRow}
    (hdq : pyUpper (pyStrip (pyStr r.dqRule)) ∈ validDqRules)
    (hnn : ¬(pyUpper (pyStrip (pyStr r.dqRule)) = "NOT_NULL" ∧
      pyUpper (pyStrip (pyStr r.ignoreNullValues)) = "TRUE"))
    (hig : pyUpper (pyStrip (pyStr r.ignoreNullValues)) ∈ triStateAccepted)
    (hth : thrErr i r = none)
    (hmin : pyUpper (pyStrip (pyStr r.strictRangeMinValue)) ∈ triStateAccepted)
    (hbad : pyUpper (pyStrip (pyStr r.strictRangeMaxValue)) ∉ triStateAccepted) :
    colRowErr i r = some (msgStrictMaxTri i) := by
  simp only [colRowErr]
  rw [if_neg (not_not_intro hdq), if_neg hnn, if_neg (not_not_intro hig), hth,
    optionNoneOrElse, if_neg (not_not_intro hmin), if_pos hbad]

/-- C1: claim as written is refuted at exRowC1, a NOT_NULL row with rule
name "rule1", description "desc1" and threshold "0": the compiled rule
contains no "name", no "description" and no "threshold" entry although
all three source values are non-empty. -/
theorem claim1_counterexample :
    exRowC1.ruleName = "rule1" ∧ exRowC1.ruleDescription = "desc1" ∧
    exRowC1.threshhold = "0" ∧
    (compileRow exRowC1).map (fun rule =>
        (ruleLookup rule "name", ruleLookup rule "description", ruleLookup rule "threshold"))
      = some (none, none, none) :=
  ⟨rfl, rfl, rfl, by rfl⟩

/-- C1 (amended): in a compiled rule the dimension, column name and
ignore-null flag are present exactly when their source values are
non-empty, the threshold is present exactly when it is non-empty and its
parsed value is nonzero (a threshold of 0 is dropped by the truthiness
test), and the rule name and rule description are never emitted. -/
theorem claim1_theorem : ∀ (r : ColumnRowF) (rule : Rule), compileRow r = some rule →
    ruleLookup rule "name" = none ∧
    ruleLookup rule "description" = none ∧
    ruleLookup rule "dimension"
      = (if dictGet dqRuleDimensionDict r.dqRule "" ≠ "" then
          some (Entry.scalar (RVal.s (dictGet dqRuleDimensionDict r.dqRule ""))) else none) ∧
    ruleLookup rule "column"
      = (if r.columnName ≠ "" then some (Entry.scalar (RVal.s r.columnName)) else none) ∧
    ruleLookup rule "ignoreNull"
      = (if r.ignoreNullValues ≠ "" then
          some (Entry.scalar (RVal.b (decide (pyLower r.ignoreNullValues = "true")))) else none) ∧
    (r.threshhold = "" → ruleLookup rule "threshold" = none) ∧
    (∀ q, pyFloat r.threshhold = some q →
      ruleLookup rule "threshold" = (if q ≠ 0 then some (Entry.scalar (RVal.n q)) else none)) := by
  intro r rule h
  obtain ⟨c, hc, hrule, hexp, hdim, hign, hcol, hmin, hmax, hsmin, hsmax, hsql, hregex,
    hset, hthr⟩ := compileRow_inv h
  obtain ⟨n1, n2, n3, n4, n5, n6⟩ := exp_ne_scalarKeys r.dqRule
  rw [← hexp] at n1 n2 n3 n4 n5 n6
  obtain ⟨ld, lc, lt, li, ln, ldesc⟩ := ruleLookup_buildRule c n1 n2 n3 n4 n5 n6
  subst hrule
  refine ⟨ln, ldesc, by rw [ld, hdim], by rw [lc, hcol], by rw [li, hign], ?_, ?_⟩
  · intro hth
    rcases hthr with ⟨-, hthr⟩ | ⟨hne, -⟩
    · rw [lt, hthr]
      simp [pyTruthy]
    · exact absurd hth hne
  · intro q hq
    rcases hthr with ⟨hemp, -⟩ | ⟨-, q0, hq0, hthr⟩
    · rw [hemp] at hq
      exact absurd hq (by rw [show pyFloat "" = none from rfl]; simp)
    · rw [hq0] at hq
      injection hq with hqq
      rw [lt, hthr, hqq]
      by_cases hz : q = 0 <;> simp [pyTruthy, hz]

/-- C1 witness: the amended statement applied to exRowC1. -/
theorem claim1_witness :
    ∃ rule, compileRow exRowC1 = some rule ∧ ruleLookup rule "name" = none ∧
      ruleLookup rule "description" = none := by
  match hr : compileRow exRowC1 with
  | some rule =>
    have h := claim1_theorem exRowC1 rule hr
    exact ⟨rule, rfl, h.1, h.2.1⟩
  | none =>
    have hs : (compileRow exRowC1).isSome = true := rfl
    rw [hr] at hs
    simp at hs

/-- C2: claim as written is refuted at exRowC2, whose rule type is
written "range": it passes the trimmed case-folded enum check, yet the
compiled rule is keyed by the empty string (not rangeExpectation) and
carries no dimension entry, because the compiler looks the stored text
up verbatim. -/
theorem claim2_counterexample :
    pyUpper (pyStrip "range") ∈ validDqRules ∧
    exRowC2.dqRule = "range" ∧
    (compileRow exRowC2).map (fun rule => (rule.head?.map Prod.fst, ruleLookup rule "dimension"))
      = some (some "", none) ∧
    ("" : String) ≠ "rangeExpectation" :=
  ⟨by decide, rfl, by rfl, by decide⟩

/-- C2 (amended): when the stored rule-type text equals one of the eight
enum members verbatim, the compiled rule nests its type-specific fields
under the expectation-kind key of the lookup table and carries the
dimension of the table, as given by the RuleType table of the spec. -/
theorem claim2_theorem : ∀ (r : ColumnRowF) (rule : Rule), compileRow r = some rule →
    r.dqRule ∈ validDqRules →
    rule.head?.map Prod.fst = some (dictGet dqRuleExpectationDict r.dqRule "") ∧
    ruleLookup rule "dimension"
      = some (Entry.scalar (RVal.s (dictGet dqRuleDimensionDict r.dqRule ""))) ∧
    ((r.dqRule = "NOT_NULL" → dictGet dqRuleExpectationDict r.dqRule "" = "nonNullExpectation" ∧
        dictGet dqRuleDimensionDict r.dqRule "" = "COMPLETENESS") ∧
     (r.dqRule = "RANGE" → dictGet dqRuleExpectationDict r.dqRule "" = "rangeExpectation" ∧
        dictGet dqRuleDimensionDict r.dqRule "" = "VALIDITY") ∧
     (r.dqRule = "UNIQUE" → dictGet dqRuleExpectationDict r.dqRule "" = "uniquenessExpectation" ∧
        dictGet dqRuleDimensionDict r.dqRule "" = "UNIQUENESS") ∧
     (r.dqRule = "SQL_ROW" → dictGet dqRuleExpectationDict r.dqRule "" = "rowConditionExpectation" ∧
        dictGet dqRuleDimensionDict r.dqRule "" = "VALIDITY") ∧
     (r.dqRule = "REGEX" → dictGet dqRuleExpectationDict r.dqRule "" = "regexExpectation" ∧
        dictGet dqRuleDimensionDict r.dqRule "" = "VALIDITY") ∧
     (r.dqRule = "SET" → dictGet dqRuleExpectationDict r.dqRule "" = "setExpectation" ∧
        dictGet dqRuleDimensionDict r.dqRule "" = "VALIDITY") ∧
     (r.dqRule = "SQL_TABLE" → dictGet dqRuleExpectationDict r.dqRule "" = "tableConditionExpectation" ∧
        dictGet dqRuleDimensionDict r.dqRule "" = "VALIDITY") ∧
     (r.dqRule = "SQL_ASSERT" → dictGet dqRuleExpectationDict r.dqRule "" = "sqlAssertion" ∧
        dictGet dqRuleDimensionDict r.dqRule "" = "VALIDITY")) := by
  intro r rule h hmem
  obtain ⟨c, hc, hrule, hexp, hdim, hign, hcol, hmin, hmax, hsmin, hsmax, hsql, hregex,
    hset, hthr⟩ := compileRow_inv h
  obtain ⟨n1, n2, n3, n4, n5, n6⟩ := exp_ne_scalarKeys r.dqRule
  rw [← hexp] at n1 n2 n3 n4 n5 n6
  obtain ⟨ld, -, -, -, -, -⟩ := ruleLookup_buildRule c n1 n2 n3 n4 n5 n6
  subst hrule
  refine ⟨?_, ?_, ?_⟩
  · rw [buildRule_head]
    simp only [Option.map_some']
    rw [hexp]
  · rw [ld, hdim]
    simp only [validDqRules, List.mem_cons, List.not_mem_nil, or_false] at hmem
    rcases hmem with hq | hq | hq | hq | hq | hq | hq | hq <;> rw [hq] <;> decide
  · refine ⟨?_, ?_, ?_, ?_, ?_, ?_, ?_, ?_⟩ <;> intro hq <;> rw [hq] <;>
      exact ⟨by decide, by decide⟩

/-- C2 witness: the amended statement applied to a row whose rule type
is stored verbatim as RANGE. -/
theorem claim2_witness :
    ∃ rule, compileRow exRowC2w = some rule ∧
      rule.head?.map Prod.fst = some "rangeExpectation" ∧
      ruleLookup rule "dimension" = some (Entry.scalar (RVal.s "VALIDITY")) := by
  match hr : compileRow exRowC2w with
  | some rule =>
    have h := claim2_theorem exRowC2w rule hr (by decide)
    refine ⟨rule, rfl, ?_, ?_⟩
    · rw [h.1]
      decide
    · rw [h.2.1]
      decide
  | none =>
    have hs : (compileRow exRowC2w).isSome = true := rfl
    rw [hr] at hs
    simp at hs

/-- C3: claim as written is refuted at exRowsC3, whose two identity
triples occur in the order b, a: the compiler emits the groups in sorted
order a, b, not in the first-seen order. -/
theorem claim3_counterexample :
    firstSeenKeys exRowsC3 = [("b", "d", "t"), ("a", "d", "t")] ∧
    (processExcel exRowsC3 []).map (fun l => l.map (fun p => p.1)) = some ["a~d~t", "b~d~t"] ∧
    ["a~d~t", "b~d~t"] ≠ (firstSeenKeys exRowsC3).map keyStr :=
  ⟨by decide, by rfl, by decide⟩

/-- C3 (amended): when distinct identity triples have distinct group-key
strings, the compiler emits the output documents in ascending
lexicographic order of the (project, dataset, table) triple, the order
pandas groupby sorts the groups into; the emitted key strings follow the
sorted group keys. -/
theorem claim3_theorem : ∀ (cols : List ColumnRowF) (tbls : List TableRowF)
    (out : List (String × String × Doc)),
    processExcel cols tbls = some out →
    ((groupKeys cols).map keyStr).Nodup →
    out.map (fun p => p.1) = (groupKeys cols).map keyStr ∧
    (groupKeys cols).Pairwise (fun a b => keyLtB a b = true) := by
  intro cols tbls out hpe hinj
  constructor
  · unfold processExcel at hpe
    rcases Option.map_eq_some'.mp hpe with ⟨d, hd, hout⟩
    rw [← hout]
    have hmm : (d.map (fun p => (p.1, nameOf p.1 p.2.scheduleInterval, buildDoc p.2))).map
        (fun p => p.1) = d.map (fun p => p.1) := by
      simp
    rw [hmm]
    rw [compileGroups_eq hinj] at hd
    apply mapM_map_eq ?hg hd
    intro k e he
    rcases Option.map_eq_some'.mp he with ⟨cs, -, hpair⟩
    rw [← hpair]
  · exact sortKeys_pairwise nodup_dedupFirstAux

/-- C3 witness: the amended statement applied to exRowsC3. -/
theorem claim3_witness :
    ∃ out, processExcel exRowsC3 [] = some out ∧
      out.map (fun p => p.1) = (groupKeys exRowsC3).map keyStr ∧
      (groupKeys exRowsC3).Pairwise (fun a b => keyLtB a b = true) := by
  match hpe : processExcel exRowsC3 [] with
  | some out =>
    have h := claim3_theorem exRowsC3 [] out hpe (by decide)
    exact ⟨out, rfl, h.1, h.2⟩
  | none =>
    have hs : (processExcel exRowsC3 []).isSome = true := rfl
    rw [hpe] at hs
    simp at hs

/-- C4: claim as written is refuted at a one-row input that passes every
check: the validator returns the message "Excel sheet is valid.", not
the string "valid". -/
theorem claim4_counterexample :
    validateExcel [exRowValid] [] = (true, "Excel sheet is valid.") ∧
    ("Excel sheet is valid." : String) ≠ "valid" :=
  ⟨by decide, by decide⟩

/-- C4 (amended): whenever the validator returns a true success flag,
its message is exactly "Excel sheet is valid.". -/
theorem claim4_theorem : ∀ (cols : List ColumnRow) (tbls : List TableRow),
    (validateExcel cols tbls).1 = true →
    validateExcel cols tbls = (true, "Excel sheet is valid.") := by
  intro cols tbls h
  exact validateExcel_true_msg h

/-- C4 witness: the amended statement applied to a valid input. -/
theorem claim4_witness : validateExcel [exRowValid] [] = (true, "Excel sheet is valid.") :=
  claim4_theorem [exRowValid] [] (by decide)

/-- C5: claim as written is refuted at a group whose TableLevel row has
sampling percentage "50": the emitted samplingPercent value is the
string "50", not a number. -/
theorem claim5_counterexample :
    (processExcel [exBaseF] [exTblSamp]).map
        (fun l => l.map (fun p => docLookup p.2.2 "samplingPercent"))
      = some [some (TVal.s "50")] ∧
    ∀ q : ℚ, TVal.s "50" ≠ TVal.n q := by
  refine ⟨by decide, ?_⟩
  intro q h
  exact TVal.noConfusion h

/-- C5 (amended): when distinct identity triples have distinct group-key
strings, a group whose matching TableLevel row has a non-empty sampling
percentage is emitted with samplingPercent bound to that raw cell text
as a string value. -/
theorem claim5_theorem : ∀ (cols : List ColumnRowF) (tbls : List TableRowF)
    (out : List (String × String × Doc)) (ks n : String) (doc : Doc) (k : Key),
    ((groupKeys cols).map keyStr).Nodup →
    processExcel cols tbls = some out →
    (ks, n, doc) ∈ out →
    ks = keyStr k → k ∈ groupKeys cols →
    metaOf tbls k (fun t => t.dataSamplingPct) ≠ "" →
    docLookup doc "samplingPercent"
      = some (TVal.s (metaOf tbls k (fun t => t.dataSamplingPct))) := by
  intro cols tbls out ks n doc k hinj hpe hm hks hkmem hsamp
  obtain ⟨cs, -, hdoc, -⟩ := processExcel_entry hinj hpe hm hks hkmem
  rw [hdoc, docLookup_buildDoc_sampling]
  have hfield : (mkAcc tbls k cs).dataSampling = metaOf tbls k (fun t => t.dataSamplingPct) := rfl
  rw [hfield, if_pos hsamp]

/-- C5 witness: the amended statement applied to exBaseF with
exTblSamp. -/
theorem claim5_witness : docLookup exDocW5 "samplingPercent" = some (TVal.s "50") := by
  have h := claim5_theorem [exBaseF] [exTblSamp] [("p~d~t", "p__d__t.yaml", exDocW5)]
    "p~d~t" "p__d__t.yaml" exDocW5 ("p", "d", "t")
    (by decide) (by decide) (by simp) (by decide) (by decide) (by decide)
  exact h.trans (by decide)

/-- C6: claim as written is refuted at a group whose export project is
the non-empty blank string " ": all three export parts are non-empty,
yet no postScanActions block is emitted, because the code additionally
strips whitespace. -/
theorem claim6_counterexample :
    (" " : String) ≠ "" ∧
    exTblExpBlank.dqExportGcpProjectId = " " ∧
    (processExcel [exBaseF] [exTblExpBlank]).map
        (fun l => l.map (fun p => docLookup p.2.2 "postScanActions"))
      = some [none] :=
  ⟨by decide, rfl, by decide⟩

/-- C6 (amended): when distinct identity triples have distinct group-key
strings, the emitted document carries the
postScanActions.bigqueryExport.resultsTable entry (the composed resource
path) exactly when all three export parts are non-blank, that is
non-empty after stripping whitespace; when one is blank the document is
still produced, only without the block. -/
theorem claim6_theorem : ∀ (cols : List ColumnRowF) (tbls : List TableRowF)
    (out : List (String × String × Doc)) (ks n : String) (doc : Doc) (k : Key),
    ((groupKeys cols).map keyStr).Nodup →
    processExcel cols tbls = some out →
    (ks, n, doc) ∈ out →
    ks = keyStr k → k ∈ groupKeys cols →
    (docLookup doc "postScanActions"
        = some (TVal.map1 [("bigqueryExport",
            [("resultsTable",
              resultsTablePath (metaOf tbls k (fun t => t.dqExportGcpProjectId))
                (metaOf tbls k (fun t => t.dqExportBqDatasetId))
                (metaOf tbls k (fun t => t.dqExportBqTableName)))])])
      ↔ (pyStrip (metaOf tbls k (fun t => t.dqExportGcpProjectId)) ≠ "" ∧
         pyStrip (metaOf tbls k (fun t => t.dqExportBqDatasetId)) ≠ "" ∧
         pyStrip (metaOf tbls k (fun t => t.dqExportBqTableName)) ≠ "")) := by
  intro cols tbls out ks n doc k hinj hpe hm hks hkmem
  obtain ⟨cs, -, hdoc, -⟩ := processExcel_entry hinj hpe hm hks hkmem
  rw [hdoc, docLookup_buildDoc_psa]
  by_cases he : exportsOk (mkAcc tbls k cs)
  · rw [if_pos he]
    obtain ⟨-, e1, -, e2, -, e3⟩ := he
    exact ⟨fun _ => ⟨e1, e2, e3⟩, fun _ => rfl⟩
  · rw [if_neg he]
    constructor
    · intro h0
      exact absurd h0 (by simp)
    · intro h0
      obtain ⟨e1, e2, e3⟩ := h0
      exact absurd ⟨ne_empty_of_strip_ne e1, e1, ne_empty_of_strip_ne e2, e2,
        ne_empty_of_strip_ne e3, e3⟩ he

/-- C6 witness: the amended statement applied to a complete export
destination. -/
theorem claim6_witness :
    docLookup exDocW6 "postScanActions"
      = some (TVal.map1 [("bigqueryExport",
          [("resultsTable", "//bigquery.googleapis.com/projects/x/datasets/y/tables/z")])]) := by
  have h := claim6_theorem [exBaseF] [exTblExpFull] [("p~d~t", "p__d__t.yaml", exDocW6)]
    "p~d~t" "p__d__t.yaml" exDocW6 ("p", "d", "t")
    (by decide) (by decide) (by simp) (by decide) (by decide)
  exact (h.mpr (by decide)).trans (by decide)

/-- C7: claim as written is refuted at a schedule descriptor that is the
non-empty blank string " ": the claim predicts a suffixed name, but the
code derives the unsuffixed name "p__d__t.yaml" because it also strips
whitespace before deciding. -/
theorem claim7_counterexample :
    (" " : String) ≠ "" ∧
    exTblSchedWs.scheduleInterval = " " ∧
    (processExcel [exBaseF] [exTblSchedWs]).map (fun l => l.map (fun p => p.2.1))
      = some ["p__d__t.yaml"] ∧
    ("p__d__t.yaml" : String)
      ≠ "p" ++ "__" ++ "d" ++ "__" ++ "t" ++ "__"
          ++ replaceChar (replaceChar " " '*' "star") ' ' "_" ++ ".yaml" :=
  ⟨by decide, rfl, by decide, by decide⟩

/-- C7 (amended): for identity fields that do not contain the key
delimiter, the derived document name is {project}__{dataset}__{table}
plus, exactly when the schedule descriptor is non-blank (non-empty after
stripping whitespace), a suffix obtained from the descriptor by
replacing every star with the literal star and every space with an
underscore; .yaml is appended in both cases. -/
theorem claim7_theorem : ∀ (p d t sched : String),
    '~' ∉ p.data → '~' ∉ d.data → '~' ∉ t.data →
    nameOf (keyStr (p, d, t)) sched
      = (if sched ≠ "" ∧ pyStrip sched ≠ "" then
          p ++ "__" ++ d ++ "__" ++ t ++ "__"
            ++ replaceChar (replaceChar sched '*' "star") ' ' "_" ++ ".yaml"
        else p ++ "__" ++ d ++ "__" ++ t ++ ".yaml") := by
  intro p d t sched hp hd ht
  unfold nameOf
  rw [keyStr_replace p d t hp hd ht]

/-- C7 witness: the amended statement applied to schedule 0 * * * *. -/
theorem claim7_witness :
    nameOf (keyStr ("p", "d", "t")) "0 * * * *" = "p__d__t__0_star_star_star_star.yaml" := by
  have h := claim7_theorem "p" "d" "t" "0 * * * *" (by decide) (by decide) (by decide)
  exact h.trans (by decide)

/-- C8: claim as written is refuted at a row whose ignore-null cell
holds the literal text "nan": the value is outside the claimed accepted
set, yet validation succeeds, because the accepted list of the code also
contains NAN. -/
theorem claim8_counterexample :
    pyUpper (pyStrip (pyStr (some "nan"))) ∉ (["", "TRUE", "FALSE"] : List String) ∧
    exRowNanFlag.ignoreNullValues = some "nan" ∧
    validateExcel [exRowNanFlag] [] = (true, "Excel sheet is valid.") :=
  ⟨by decide, rfl, by decide⟩

/-- C8 (amended): the validator accepts the ignore-null, strict-min and
strict-max flags only when each value, trimmed and upper-cased, is one
of empty, NAN, TRUE, FALSE (a missing cell prints as nan and is
accepted); when the first violation of the whole validation is such a
flag of row i, validation fails with the message citing the ColumnLevel
sheet and the 1-based row number i+1. -/
theorem claim8_theorem : ∀ (cols : List ColumnRow) (tbls : List TableRow),
    ((validateExcel cols tbls).1 = true → ∀ r ∈ cols, flagsOk r) ∧
    (∀ i r, cols[i]? = some r →
      firstErr colIdErr cols = none →
      firstErr tblIdErr tbls = none →
      firstErr (crossErr cols) tbls = none →
      (∀ j x, j < i → cols[j]? = some x → colRowErr j x = none) →
      pyUpper (pyStrip (pyStr r.dqRule)) ∈ validDqRules →
      ¬(pyUpper (pyStrip (pyStr r.dqRule)) = "NOT_NULL" ∧
        pyUpper (pyStrip (pyStr r.ignoreNullValues)) = "TRUE") →
      ((pyUpper (pyStrip (pyStr r.ignoreNullValues)) ∉ triStateAccepted →
        validateExcel cols tbls = (false, msgIgnoreTri i)) ∧
       (thrErr i r = none →
        pyUpper (pyStrip (pyStr r.ignoreNullValues)) ∈ triStateAccepted →
        ((pyUpper (pyStrip (pyStr r.strictRangeMinValue)) ∉ triStateAccepted →
          validateExcel cols tbls = (false, msgStrictMinTri i)) ∧
         (pyUpper (pyStrip (pyStr r.strictRangeMinValue)) ∈ triStateAccepted →
          pyUpper (pyStrip (pyStr r.strictRangeMaxValue)) ∉ triStateAccepted →
          validateExcel cols tbls = (false, msgStrictMaxTri i)))))) := by
  intro cols tbls
  constructor
  · intro h r hr
    obtain ⟨-, ha⟩ := validateExcel_true_parts h
    obtain ⟨-, -, -, h4, -⟩ := allErr_none_parts ha
    obtain ⟨idx, hidx⟩ := List.mem_iff_getElem?.mp hr
    exact colRowErr_none_flagsOk (firstErr_none_iff.mp h4 idx r hidx)
  · intro i r hir h1 h2 h3 hprev hdq hnn
    have hne : cols ≠ [] := by
      intro e
      rw [e] at hir
      simp at hir
    refine ⟨?_, ?_⟩
    · intro hbad
      exact validateExcel_of_allErr hne (allErr_colRow_fires h1 h2 h3
        (firstErr_fires hir hprev (colRowErr_fires_ignore hdq hnn hbad)))
    · intro hth hig
      refine ⟨?_, ?_⟩
      · intro hbad
        exact validateExcel_of_allErr hne (allErr_colRow_fires h1 h2 h3
          (firstErr_fires hir hprev (colRowErr_fires_strictMin hdq hnn hig hth hbad)))
      · intro hmin hbad
        exact validateExcel_of_allErr hne (allErr_colRow_fires h1 h2 h3
          (firstErr_fires hir hprev (colRowErr_fires_strictMax hdq hnn hig hth hmin hbad)))

/-- C8 witness: the amended statement applied to a row whose ignore-null
flag is "maybe", failing at row 1. -/
theorem claim8_witness : validateExcel [exRowBadFlag] [] = (false, msgIgnoreTri 0) := by
  have h := (claim8_theorem [exRowBadFlag] []).2 0 exRowBadFlag (by rfl) (by decide)
    (by decide) (by decide) (fun j x hj _ => absurd hj (Nat.not_lt_zero j))
    (by decide) (by decide)
  exact h.1 (by decide)

/-- C9: claim as written is refuted at two rows whose distinct identity
triples share the group-key string "a~b~c~d": the single emitted
document for that key holds two rules although the group of
("a", "b~c", "d") has one row. -/
theorem claim9_counterexample :
    keyStr ("a", "b~c", "d") = keyStr ("a~b", "c", "d") ∧
    (("a", "b~c", "d") : Key) ≠ ("a~b", "c", "d") ∧
    (processExcel exColsC9 []).map (fun l => l.map (fun p => (p.1, rulesLen p.2.2)))
      = some [("a~b~c~d", 2)] ∧
    (groupRows exColsC9 ("a", "b~c", "d")).length = 1 :=
  ⟨by decide, by decide, by rfl, by decide⟩

/-- C9 (amended): when distinct identity triples have distinct group-key
strings, the rules list of the document emitted for a group holds
exactly one compiled rule per ColumnLevel row of that group, in the
order the rows occur in the input. -/
theorem claim9_theorem : ∀ (cols : List ColumnRowF) (tbls : List TableRowF)
    (out : List (String × String × Doc)) (ks n : String) (doc : Doc) (k : Key),
    ((groupKeys cols).map keyStr).Nodup →
    processExcel cols tbls = some out →
    (ks, n, doc) ∈ out →
    ks = keyStr k → k ∈ groupKeys cols →
    ∃ cs, (groupRows cols k).mapM mkCells = some cs ∧
      docLookup doc "rules" = some (TVal.rules (cs.map buildRule)) ∧
      cs.length = (groupRows cols k).length := by
  intro cols tbls out ks n doc k hinj hpe hm hks hkmem
  obtain ⟨cs, hcs, hdoc, -⟩ := processExcel_entry hinj hpe hm hks hkmem
  refine ⟨cs, hcs, ?_, mapM_some_length hcs⟩
  rw [hdoc, docLookup_buildDoc_rules]
  rfl

/-- C9 witness: the amended statement applied to a two-row group. -/
theorem claim9_witness :
    ∃ cs, (groupRows exColsW9 ("p", "d", "t")).mapM mkCells = some cs ∧
      docLookup exDocW9 "rules" = some (TVal.rules (cs.map buildRule)) ∧
      cs.length = (groupRows exColsW9 ("p", "d", "t")).length :=
  claim9_theorem exColsW9 [] [("p~d~t", "p__d__t.yaml", exDocW9)] "p~d~t" "p__d__t.yaml"
    exDocW9 ("p", "d", "t") (by decide) (by decide) (by simp) (by decide) (by decide)

/-- C10: every compiled rule starts with the verbatim looked-up
expectation-kind key bound to a nested mapping; the key is present with
an empty mapping when no nested field applies, NOT_NULL and UNIQUE map
to nonNullExpectation and uniquenessExpectation, and a stored rule-type
text absent from the lookup table yields the empty-string key. -/
theorem claim10_theorem : ∀ (r : ColumnRowF) (rule : Rule), compileRow r = some rule →
    rule.head?.map Prod.fst = some (dictGet dqRuleExpectationDict r.dqRule "") ∧
    (∃ m, rule.head? = some (dictGet dqRuleExpectationDict r.dqRule "", Entry.nested m)) ∧
    (r.dqRule ∉ dqRuleExpectationDict.map Prod.fst → rule.head?.map Prod.fst = some "") ∧
    (r.rangeMinValue = "" → r.rangeMaxValue = "" → r.strictRangeMinValue = "" →
     r.strictRangeMaxValue = "" → r.sqlExpression = "" → r.regularExpression = "" →
     r.setValues = "" →
     rule.head? = some (dictGet dqRuleExpectationDict r.dqRule "", Entry.nested [])) ∧
    (r.dqRule = "NOT_NULL" → dictGet dqRuleExpectationDict r.dqRule "" = "nonNullExpectation") ∧
    (r.dqRule = "UNIQUE" → dictGet dqRuleExpectationDict r.dqRule "" = "uniquenessExpectation") := by
  intro r rule h
  obtain ⟨c, hc, hrule, hexp, hdim, hign, hcol, hmin, hmax, hsmin, hsmax, hsql, hregex,
    hset, hthr⟩ := compileRow_inv h
  subst hrule
  have hh := buildRule_head c
  refine ⟨?_, ?_, ?_, ?_, ?_, ?_⟩
  · rw [hh]
    simp only [Option.map_some']
    rw [hexp]
  · exact ⟨nestedFields c, by rw [hh, hexp]⟩
  · intro hnm
    rw [hh]
    simp only [Option.map_some']
    rw [hexp, dictGet_not_mem hnm]
  · intro e1 e2 e3 e4 e5 e6 e7
    have hn : nestedFields c = [] := by
      apply nestedFields_empty
      · rw [hmin]; exact e1
      · rw [hmax]; exact e2
      · rw [hsmin]; exact e3
      · rw [hsmax]; exact e4
      · rw [hsql]; exact e5
      · rw [hregex]; exact e6
      · rw [hset, if_pos e7]
        rfl
    rw [hh, hexp, hn]
  · intro he
    rw [he]
    decide
  · intro he
    rw [he]
    decide

/-- C10 witness: the statement applied to a NOT_NULL row with every
optional field empty. -/
theorem claim10_witness :
    ∃ rule, compileRow exRowC10 = some rule ∧
      rule.head? = some ("nonNullExpectation", Entry.nested []) := by
  match hr : compileRow exRowC10 with
  | some rule =>
    have h := claim10_theorem exRowC10 rule hr
    have h4 := h.2.2.2.1 rfl rfl rfl rfl rfl rfl rfl
    have h5 := h.2.2.2.2.1 rfl
    rw [h5] at h4
    exact ⟨rule, rfl, h4⟩
  | none =>
    have hs : (compileRow exRowC10).isSome = true := rfl
    rw [hr] at hs
    simp at hs
